import Mathlib

set_option linter.unusedVariables false

/- Shallow embedding of the graph lowering engine in
src/max_torch_backend/compiler.py: the FX-node walk that builds a MAX graph
(classes TensorsBook and _GraphFactory, functions apply_decompositions,
fetch_attr, get_fully_qualified_name, and MaxCompiler.__call__). -/

namespace MaxTorchBackend

/-- Torch-side tensor shape dimension: a concrete int or a torch.SymInt;
str(dim) of a SymInt prints its symbolic name, modelled as the carried string.
(torch tensor shapes contain only ints and SymInts, so the TypeError branch of
handle_placeholder for other dimension types is unreachable and has no
constructor here.) -/
inductive TorchDim where
  | int (n : Int)
  | symInt (s : String)
deriving DecidableEq, Repr

/-- MAX graph shape dimension: a static integer or a symbolic (named) dimension,
mirroring how compiler.py appends either `dim` or `str(dim)` to the shape list. -/
inductive Dim where
  | static (n : Int)
  | symbolic (s : String)
deriving DecidableEq, Repr

/-- max.graph.value.TensorType as built in handle_placeholder: dtype and device
kept as opaque tags, shape as a list of dimensions. -/
structure TensorType where
  dtype : String
  shape : List Dim
  device : String
deriving DecidableEq, Repr

/-- A value living in the MAX graph: a graph input handle (graph.inputs[idx])
or a shape dimension extracted from such a handle (tensor.shape[dim_idx]). -/
inductive MaxVal where
  | tensorInput (idx : Nat) (ty : TensorType)
  | dim (d : Dim)
deriving DecidableEq, Repr

/-- The closed universe of runtime values flowing through
TensorsBook.convert_to_max (compiler.py lines 116-145), one constructor per
isinstance branch of the source, plus: `maxValue` for values of the MAX graph
(which enter the book via node bindings), `module` for torch.nn.Module,
and `other` for any runtime type outside the listed branches, carrying the
printed name of its concrete type. Python bools are ints (int branch);
`float` carries the bit pattern opaquely, floats are only passed through,
never computed with. -/
inductive PyVal where
  | node (name : String)
  | str (s : String)
  | int (n : Int)
  | float (bits : Nat)
  | slice (start stop step : PyVal)
  | list (xs : List PyVal)
  | tuple (xs : List PyVal)
  | device (d : String)
  | dtype (d : String)
  | none
  | ellipsis
  | module (id : Nat)
  | maxValue (v : MaxVal)
  | other (tyName : String)

/-- Python `x is None` test used by handle_output. -/
def PyVal.isNone : PyVal → Bool
  | .none => true
  | _ => false

/-- The name Python prints for type(x) in the catch-all error branch of
convert_to_max, for values modelled abstractly. -/
def maxValTypeName : MaxVal → String
  | .tensorInput _ _ => "max.graph.value.TensorValue"
  | .dim _ => "max.graph.type.Dim"

/-- The error/exception outcomes of a compilation, one constructor per raise
site of compiler.py; `uncaught` stands for exceptions that escape without a
dedicated raise in this code (AttributeError, UnboundLocalError, IndexError,
and non-RuntimeError exceptions escaping a lowering function). -/
inductive Err where
  | keyError (k : String)
  | unsupportedValueType (tyName : String)
  | unsupportedOperator (nodeIdx : Nat) (qualifiedName : String)
  | loweringFailed (nodeIdx : Nat) (qualifiedName : String) (args : List PyVal)
      (kwargs : List (String × PyVal)) (originalError : String) (trace : String)
  | uncaught (excName : String) (msg : String)
  | graphAlreadyInitialized
  | emptyOutput (nodeName : String)
  | unsupportedNodeType (op : String)
  | fetchAttrMissing (path : String)

/-- TensorsBook.tensors: an insertion-ordered string-keyed dict. -/
abbrev Book := List (String × PyVal)

/-- Python dict lookup d[k] (first matching key; dicts hold each key once). -/
def dictGet {α : Type _} : List (String × α) → String → Option α
  | [], _ => Option.none
  | (k0, v0) :: rest, k => if k0 = k then some v0 else dictGet rest k

/-- Python dict assignment d[k] = v: replace in place if the key exists,
append at the end otherwise (dicts are insertion ordered). -/
def dictSet {α : Type _} : List (String × α) → String → α → List (String × α)
  | [], k, v => [(k, v)]
  | (k0, v0) :: rest, k, v =>
    if k0 = k then (k, v) :: rest else (k0, v0) :: dictSet rest k v

mutual

/-- TensorsBook.convert_to_max (compiler.py lines 116-145): the recursive value
converter. Branches in source order: fx Node reference (dict lookup, KeyError
when unbound), str, int, float, slice (rebuilt from converted bounds),
immutable_list, tuple, torch.device, torch.dtype, None, Ellipsis,
torch.nn.Module, and the final ValueError naming the runtime type. -/
def convert_to_max (book : Book) : PyVal → Except Err PyVal
  | .node n =>
    match dictGet book n with
    | some v => .ok v
    | Option.none => .error (.keyError n)
  | .str s => .ok (.str s)
  | .int n => .ok (.int n)
  | .float b => .ok (.float b)
  | .slice a b c =>
    match convert_to_max book a with
    | .error e => .error e
    | .ok a2 =>
      match convert_to_max book b with
      | .error e => .error e
      | .ok b2 =>
        match convert_to_max book c with
        | .error e => .error e
        | .ok c2 => .ok (.slice a2 b2 c2)
  | .list xs =>
    match convertList book xs with
    | .error e => .error e
    | .ok ys => .ok (.list ys)
  | .tuple xs =>
    match convertList book xs with
    | .error e => .error e
    | .ok ys => .ok (.tuple ys)
  | .device d => .ok (.device d)
  | .dtype d => .ok (.dtype d)
  | .none => .ok .none
  | .ellipsis => .ok .ellipsis
  | .module m => .ok (.module m)
  | .maxValue v => .error (.unsupportedValueType (maxValTypeName v))
  | .other t => .error (.unsupportedValueType t)

/-- Element-wise conversion of a sequence, as the list/tuple comprehensions of
convert_to_max do: first failure aborts, order preserved. -/
def convertList (book : Book) : List PyVal → Except Err (List PyVal)
  | [] => .ok []
  | x :: xs =>
    match convert_to_max book x with
    | .error e => .error e
    | .ok y =>
      match convertList book xs with
      | .error e => .error e
      | .ok ys => .ok (y :: ys)

end

/-- The target of an fx call node: either a plain string (call_method), a plain
Python callable with a module and qualname (no `namespace` attribute), or a
torch OpOverload, which has `namespace` and `overloadpacket` attributes. -/
inductive FxTarget where
  | str (s : String)
  | callable (modName qualName : String)
  | opOverload (ns packet overload : String)
deriving DecidableEq, Repr

/-- A key of the externally supplied MAPPING_TORCH_TO_MOJO_FUNCTIONS table:
a method-name string, a plain callable, an OpOverloadPacket, or a
non-canonicalized OpOverload. -/
inductive FxKey where
  | str (s : String)
  | callable (modName qualName : String)
  | packet (ns packet : String)
  | overload (ns packet overload : String)
deriving DecidableEq, Repr

/-- The key canonicalization of handle_call_function (compiler.py lines
219-221): `key = node.target; if hasattr(key, "namespace") and
key.namespace == "aten": key = key.overloadpacket`. Only OpOverloads have a
namespace attribute, and only aten overloads are collapsed to their packet. -/
def canonKey : FxTarget → FxKey
  | .str s => .str s
  | .callable m q => .callable m q
  | .opOverload ns p o => if ns = "aten" then .packet ns p else .overload ns p o

/-- get_fully_qualified_name (compiler.py lines 85-96): strings become
"torch.Tensor.<name>"; callables are rendered from __module__ and __qualname__
followed by " of type <type> " (the type tail is kept abstract per kind). -/
def get_fully_qualified_name : FxTarget → String
  | .str s => "torch.Tensor." ++ s
  | .callable m q => m ++ "." ++ q ++ " of type <class function> "
  | .opOverload ns p o =>
    "torch.ops." ++ ns ++ "." ++ p ++ "." ++ o ++ " of type <class OpOverload> "

/-- The op kind of an fx node. In the source these are the strings
"placeholder", "call_function", "call_method", "get_attr", "output";
`other` covers any further op string and feeds the unsupported-node raise. -/
inductive FxOp where
  | placeholder
  | call_function
  | call_method
  | get_attr
  | output
  | other (s : String)
deriving DecidableEq, Repr

/-- An example/meta value recorded on a placeholder node: a (fake) tensor
carrying dtype, shape and device, a torch.SymInt, or any other value. -/
inductive ExampleValue where
  | tensor (dtype : String) (shape : List TorchDim) (device : String)
  | symInt (s : String)
  | otherVal (tyName : String)
deriving DecidableEq, Repr

/-- The node.meta dict, restricted to the two keys the source reads:
"example_value" and "val". -/
structure FxNodeMeta where
  example_value : Option ExampleValue
  val : Option ExampleValue
deriving DecidableEq, Repr

/-- A torch.fx node: op kind, unique name, call target, positional args,
keyword args, metadata, and the recorded Python stack trace. -/
structure FxNode where
  op : FxOp
  name : String
  target : FxTarget
  args : List PyVal
  kwargs : List (String × PyVal)
  meta : FxNodeMeta
  stack_trace : String

/-- A torch.fx.GraphModule, reduced to its topologically ordered node list. -/
structure GraphModule where
  nodes : List FxNode

/-- A Python object hierarchy (module attributes), as walked by fetch_attr. -/
inductive PyObj where
  | obj (attrs : List (String × PyObj))

/-- Python getattr on the modelled object hierarchy (None when absent,
mirroring hasattr returning False). -/
def pyGetAttr : PyObj → String → Option PyObj
  | .obj attrs, a => dictGet attrs a

/-- Python str.split(".") over the string's characters. -/
def splitDotsGo (acc : List Char) : List Char → List String
  | [] => [String.mk acc]
  | c :: cs =>
    if c = '.' then String.mk acc :: splitDotsGo [] cs
    else splitDotsGo (acc ++ [c]) cs

/-- target.split(".") of fetch_attr, modelled directly on the character list. -/
def splitDots (s : String) : List String := splitDotsGo [] s.data

/-- "." ++-joining of `'.'.join(target_atoms[: i + 1])` in fetch_attr's error
message. -/
def joinDots : List String → String
  | [] => ""
  | [a] => a
  | a :: rest => a ++ "." ++ joinDots rest

/-- The atom-walking loop of fetch_attr: `done` holds the atoms already
resolved (for the error message), failing with the RuntimeError of
compiler.py lines 156-159 when an atom is missing. -/
def fetch_attr_go (done : List String) : PyObj → List String → Except Err PyObj
  | cur, [] => .ok cur
  | cur, a :: rest =>
    match pyGetAttr cur a with
    | Option.none => .error (.fetchAttrMissing (joinDots (done ++ [a])))
    | some nxt => fetch_attr_go (done ++ [a]) nxt rest

/-- fetch_attr (compiler.py lines 148-161): resolve the dotted attribute path
`target` through the module hierarchy `gm`. -/
def fetch_attr (gm : PyObj) (target : String) : Except Err PyObj :=
  fetch_attr_go [] gm (splitDots target)

/-- The MAX Graph object built by initialize_graph: its name, declared input
types, and the outputs submitted by graph.output (none until then). -/
structure MaxGraph where
  name : String
  inputTypes : List TensorType
  outputs : Option (List PyVal)

/-- A lowering capability of the translation table: takes converted positional
and keyword arguments and either returns a value or raises. -/
inductive PyExc where
  | runtimeError (msg : String)
  | otherExc (excName msg : String)

/-- The type of MAPPING_TORCH_TO_MOJO_FUNCTIONS entries. -/
abbrev LoweringFn := List PyVal → List (String × PyVal) → Except PyExc PyVal

/-- Lookup in the translation table (Python `key in MAPPING` / `MAPPING[key]`). -/
def keyLookup : List (FxKey × LoweringFn) → FxKey → Option LoweringFn
  | [], _ => Option.none
  | (k0, f) :: rest, k => if k0 = k then some f else keyLookup rest k

/-- The mutable state of a _GraphFactory instance (compiler.py lines 164-170).
`none_indices` is the attribute set by handle_output, [] before that (matching
the getattr(factory, "none_indices", []) default read by MaxCompiler).
`scopeOpens`/`scopeCloses` log the graph context-manager events: scopeOpens
counts Graph(...).__enter__() calls, scopeCloses counts graph.__exit__ calls. -/
structure FactoryState where
  names_to_input_idx : List (String × Nat)
  shape_names_to_input_dim : List (String × (String × Nat))
  graph_inputs : List TensorType
  graph : Option MaxGraph
  tensor_book : Book
  none_indices : List Nat
  scopeOpens : Nat
  scopeCloses : Nat

/-- A fresh _GraphFactory (its __init__). -/
def initFactoryState : FactoryState :=
  { names_to_input_idx := []
    shape_names_to_input_dim := []
    graph_inputs := []
    graph := Option.none
    tensor_book := []
    none_indices := []
    scopeOpens := 0
    scopeCloses := 0 }

/-- DType.from_torch, kept as an abstract injective tag on the dtype name. -/
def dtypeFromTorch (d : String) : String := d

/-- max_device_ref, kept as an abstract injective tag on the device name. -/
def maxDeviceRef (d : String) : String := d

/-- The per-dimension translation appended to `shape` in handle_placeholder:
SymInts become their printed name, ints stay. -/
def dimToMax : TorchDim → Dim
  | .int n => .static n
  | .symInt s => .symbolic s

/-- The dimension loop of handle_placeholder (compiler.py lines 194-204):
walk the example tensor's shape left to right starting at index `j`, building
the MAX shape and registering every symbolic name into
shape_names_to_input_dim as (producing tensor name, dimension index). -/
def buildShape (tname : String) : List TorchDim → Nat →
    List (String × (String × Nat)) → List Dim × List (String × (String × Nat))
  | [], _, m => ([], m)
  | .int n :: rest, j, m =>
    (Dim.static n :: (buildShape tname rest (j + 1) m).1,
     (buildShape tname rest (j + 1) m).2)
  | .symInt s :: rest, j, m =>
    (Dim.symbolic s :: (buildShape tname rest (j + 1) (dictSet m s (tname, j))).1,
     (buildShape tname rest (j + 1) (dictSet m s (tname, j))).2)

/-- The meta lookup at the top of handle_placeholder (compiler.py lines
187-190): "example_value" if present, else "val"; none when both are absent
(in which case the local variable example_value is never assigned). -/
def metaExample (node : FxNode) : Option ExampleValue :=
  match node.meta.example_value with
  | some ev => some ev
  | Option.none => node.meta.val

/-- handle_placeholder (compiler.py lines 186-212). With neither meta key
present the source falls through to reading the unassigned local
example_value, an UnboundLocalError. A tensor example value declares a graph
input and registers its symbolic dimensions; every other example value leaves
the state untouched (the SymInt branch is an explicit `pass`). -/
def handle_placeholder (st : FactoryState) (node : FxNode) :
    Except (Err × FactoryState) FactoryState :=
  match metaExample node with
  | Option.none =>
    .error (.uncaught "UnboundLocalError"
      "local variable example_value referenced before assignment", st)
  | some ev =>
    match ev with
    | .tensor dt sh dev =>
      let dims := (buildShape node.name sh 0 st.shape_names_to_input_dim).1
      let m2 := (buildShape node.name sh 0 st.shape_names_to_input_dim).2
      let gi := st.graph_inputs ++
        [{ dtype := dtypeFromTorch dt, shape := dims, device := maxDeviceRef dev }]
      .ok { st with
              shape_names_to_input_dim := m2
              graph_inputs := gi
              names_to_input_idx :=
                dictSet st.names_to_input_idx node.name (gi.length - 1) }
    | _ => .ok st

/-- graph.inputs: one TensorValue handle per declared input type, in order,
indexed from `i`. -/
def giGo (i : Nat) : List TensorType → List PyVal
  | [] => []
  | ty :: rest => .maxValue (.tensorInput i ty) :: giGo (i + 1) rest

/-- graph.inputs of a graph with the given input types. -/
def graphInputsOf (tys : List TensorType) : List PyVal := giGo 0 tys

/-- The first book-filling loop of initialize_graph (compiler.py lines
179-180): `self.tensor_book[tensor_name] = self.graph.inputs[idx]`, with the
IndexError of an out-of-range index escaping uncaught; errors carry the book
as mutated so far, as the Python object mutations persist past a raise. -/
def bindInputs (inputs : List PyVal) :
    List (String × Nat) → Book → Except (Err × Book) Book
  | [], book => .ok book
  | (tname, idx) :: rest, book =>
    match inputs.get? idx with
    | Option.none => .error (.uncaught "IndexError" "list index out of range", book)
    | some v => bindInputs inputs rest (dictSet book tname v)

/-- `value.shape[dim_idx]` on a book entry, as read by the second loop of
initialize_graph: only a tensor handle has a shape; the index must be in
range. -/
def shapeIndex (v : PyVal) (d : Nat) : Except Err PyVal :=
  match v with
  | .maxValue (.tensorInput _ ty) =>
    match ty.shape.get? d with
    | some dim => .ok (.maxValue (.dim dim))
    | Option.none => .error (.uncaught "IndexError" "tuple index out of range")
  | _ => .error (.uncaught "AttributeError" "object has no attribute shape")

/-- The second book-filling loop of initialize_graph (compiler.py lines
181-184): `self.tensor_book[shape_name] =
self.tensor_book.tensors[tensor_name].shape[dim_idx]`; a missing tensor name
is a KeyError. Errors carry the book as mutated so far. -/
def bindShapes :
    List (String × (String × Nat)) → Book → Except (Err × Book) Book
  | [], book => .ok book
  | (sname, tname, didx) :: rest, book =>
    match dictGet book tname with
    | Option.none => .error (.keyError tname, book)
    | some v =>
      match shapeIndex v didx with
      | .error e => .error (e, book)
      | .ok sv => bindShapes rest (dictSet book sname sv)

/-- The Graph object created by initialize_graph, with the inputs declared so
far. -/
def newGraph (st : FactoryState) : MaxGraph :=
  { name := "max_torch_backend", inputTypes := st.graph_inputs
    outputs := Option.none }

/-- initialize_graph (compiler.py lines 172-184): fails if the graph already
exists; otherwise enters the Graph context (logged in scopeOpens) and fills
the tensor book with the input handles and the registered symbolic shape
dimensions. Errors carry the state as mutated so far. -/
def initialize_graph (st : FactoryState) : Except (Err × FactoryState) FactoryState :=
  match st.graph with
  | some _ => .error (.graphAlreadyInitialized, st)
  | Option.none =>
    match bindInputs (graphInputsOf st.graph_inputs) st.names_to_input_idx
        st.tensor_book with
    | .error (e, book) =>
      .error (e, { st with graph := some (newGraph st)
                           scopeOpens := st.scopeOpens + 1
                           tensor_book := book })
    | .ok book1 =>
      match bindShapes st.shape_names_to_input_dim book1 with
      | .error (e, book2) =>
        .error (e, { st with graph := some (newGraph st)
                             scopeOpens := st.scopeOpens + 1
                             tensor_book := book2 })
      | .ok book2 =>
        .ok { st with graph := some (newGraph st)
                      scopeOpens := st.scopeOpens + 1
                      tensor_book := book2 }

/-- The kwargs dict comprehension of handle_call_function: convert each value,
keep each key, first failure aborts. -/
def convertKwargs (book : Book) :
    List (String × PyVal) → Except Err (List (String × PyVal))
  | [] => .ok []
  | (k, v) :: rest =>
    match convert_to_max book v with
    | .error e => .error e
    | .ok c =>
      match convertKwargs book rest with
      | .error e => .error e
      | .ok cs => .ok ((k, c) :: cs)

/-- handle_call_function (compiler.py lines 214-238): convert args and kwargs
through the tensor book, canonicalize the target into the lookup key, fail
with the unsupported-operator ValueError when the key is absent from the
mapping, otherwise invoke the lowering function: a RuntimeError it raises is
wrapped into MaxCompilerError (node index, qualified name, converted args and
kwargs, original message, node.stack_trace); any other exception escapes
uncaught; on success the node's name is bound to the returned value. -/
def handle_call_function (mapping : List (FxKey × LoweringFn))
    (st : FactoryState) (node_idx : Nat) (node : FxNode) :
    Except (Err × FactoryState) FactoryState :=
  match convertList st.tensor_book node.args with
  | .error e => .error (e, st)
  | .ok func_args =>
    match convertKwargs st.tensor_book node.kwargs with
    | .error e => .error (e, st)
    | .ok func_kwargs =>
      match keyLookup mapping (canonKey node.target) with
      | Option.none =>
        .error (.unsupportedOperator node_idx
          (get_fully_qualified_name node.target), st)
      | some f =>
        match f func_args func_kwargs with
        | .error (.runtimeError msg) =>
          .error (.loweringFailed node_idx (get_fully_qualified_name node.target)
            func_args func_kwargs msg node.stack_trace, st)
        | .error (.otherExc ename emsg) => .error (.uncaught ename emsg, st)
        | .ok out =>
          .ok { st with tensor_book := dictSet st.tensor_book node.name out }

/-- handle_get_attr (compiler.py lines 240-242) calls `self.fetch_attr(...)`,
but class _GraphFactory defines no fetch_attr attribute (fetch_attr is a
module-level function taking the GraphModule, and the factory holds no
GraphModule), so the attribute lookup on self raises AttributeError before
anything else happens. -/
def handle_get_attr (st : FactoryState) (node : FxNode) :
    Except (Err × FactoryState) FactoryState :=
  .error (.uncaught "AttributeError"
    "_GraphFactory object has no attribute fetch_attr", st)

/-- The element loop of handle_output (compiler.py lines 249-254), walking the
output list from position `i`: convert each element; a None conversion records
its position, anything else is appended to the concrete outputs in order. -/
def collectOutputs (book : Book) :
    List PyVal → Nat → Except Err (List PyVal × List Nat)
  | [], _ => .ok ([], [])
  | x :: rest, i =>
    match convert_to_max book x with
    | .error e => .error e
    | .ok c =>
      match collectOutputs book rest (i + 1) with
      | .error e => .error e
      | .ok (outs, nones) =>
        if c.isNone then .ok (outs, i :: nones) else .ok (c :: outs, nones)

/-- node.args[0] of the output node: the single ordered argument sequence
(an immutable list or a tuple); anything else fails iteration. -/
def outputArgList (node : FxNode) : Option (List PyVal) :=
  match node.args with
  | .list xs :: _ => some xs
  | .tuple xs :: _ => some xs
  | _ => Option.none

/-- handle_output (compiler.py lines 244-266): convert the elements of
node.args[0], store the None positions on the factory, raise the
all-outputs-None ValueError when no concrete output remains (before touching
the graph), otherwise submit the concrete outputs in order and exit the graph
context (logged in scopeCloses). -/
def handle_output (st : FactoryState) (node : FxNode) :
    Except (Err × FactoryState) FactoryState :=
  match outputArgList node with
  | Option.none => .error (.uncaught "TypeError" "output argument is not iterable", st)
  | some xs =>
    match collectOutputs st.tensor_book xs 0 with
    | .error e => .error (e, st)
    | .ok (output_tensors, nones) =>
      match output_tensors with
      | [] => .error (.emptyOutput node.name, { st with none_indices := nones })
      | _ :: _ =>
        match st.graph with
        | Option.none =>
          .error (.uncaught "AttributeError"
            "NoneType object has no attribute output",
            { st with none_indices := nones })
        | some g =>
          .ok { st with
                  none_indices := nones
                  graph := some { g with outputs := some output_tensors }
                  scopeCloses := st.scopeCloses + 1 }

/-- The lazy graph creation guard of create_graph (compiler.py lines 277-278):
`if not self.graph: self.initialize_graph()`, run before dispatching any
non-placeholder node. -/
def ensureGraph (st : FactoryState) : Except (Err × FactoryState) FactoryState :=
  if st.graph.isNone then initialize_graph st else .ok st

/-- One iteration of the node walk of create_graph (compiler.py lines
272-287): placeholders are handled directly; every other node first triggers
the lazy graph initialization, then dispatches on its op kind, with unknown
kinds raising the unsupported-node-type ValueError. -/
def stepNode (mapping : List (FxKey × LoweringFn)) (st : FactoryState)
    (node_idx : Nat) (node : FxNode) : Except (Err × FactoryState) FactoryState :=
  match node.op with
  | .placeholder => handle_placeholder st node
  | op =>
    match ensureGraph st with
    | .error e => .error e
    | .ok st1 =>
      match op with
      | .call_function => handle_call_function mapping st1 node_idx node
      | .call_method => handle_call_function mapping st1 node_idx node
      | .get_attr => handle_get_attr st1 node
      | .output => handle_output st1 node
      | .placeholder => handle_placeholder st1 node
      | .other s => .error (.unsupportedNodeType s, st1)

/-- The enumerate loop of create_graph over nodes starting at index `idx`;
any exception aborts the walk immediately (no exception handling exists in
create_graph). -/
def runNodes (mapping : List (FxKey × LoweringFn)) (st : FactoryState)
    (idx : Nat) : List FxNode → Except (Err × FactoryState) FactoryState
  | [] => .ok st
  | node :: rest =>
    match stepNode mapping st idx node with
    | .error e => .error e
    | .ok st2 => runNodes mapping st2 (idx + 1) rest

/-- create_graph (compiler.py lines 268-288) on a fresh factory: walk the node
list in program order; the compiled graph handle is the `graph` field of the
final state, and an error return means the exception propagated out of
_GraphFactory.create_graph (and hence out of MaxCompiler.__init__): no graph
handle reaches the caller. -/
def create_graph (mapping : List (FxKey × LoweringFn)) (nodes : List FxNode) :
    Except (Err × FactoryState) FactoryState :=
  runNodes mapping initFactoryState 0 nodes

/-- The match scan of apply_decompositions (compiler.py lines 31-34): does any
node have op "call_function" with its raw (non-canonicalized) target in the
decomposition table? -/
def needs_decomposition (decompTable : List FxTarget) (gm : GraphModule) : Bool :=
  gm.nodes.any (fun n =>
    (match n.op with | .call_function => true | _ => false)
      && decompTable.contains n.target)

/-- The example-value selection of apply_decompositions for one placeholder
(compiler.py lines 51-57): meta["val"] if present, else meta["example_value"],
else the dummy torch.tensor(0.0) — note the key preference is reversed
relative to handle_placeholder. -/
def placeholderExample (n : FxNode) : ExampleValue :=
  match n.meta.val with
  | some v => v
  | Option.none =>
    match n.meta.example_value with
    | some v => v
    | Option.none => .tensor "float32" [] "cpu"

/-- torch.zeros_like applied to a tensor example (compiler.py line 61): keeps
shape, dtype and device; tensor contents are not modelled. Non-tensor example
values are appended unchanged (line 64). -/
def dummyInput (n : FxNode) : ExampleValue :=
  match placeholderExample n with
  | .tensor dt sh dev => .tensor dt sh dev
  | ev => ev

/-- The example-inputs loop of apply_decompositions (compiler.py lines 48-64):
one representative value per placeholder node, in program order. -/
def build_example_inputs (gm : GraphModule) : List ExampleValue :=
  gm.nodes.filterMap (fun n =>
    match n.op with
    | .placeholder => some (dummyInput n)
    | _ => Option.none)

/-- apply_decompositions (compiler.py lines 24-73). The re-tracing
`make_fx(decompose_with_make_fx, decomposition_table=...)(*example_inputs)`
is external torch machinery supplied here as the function `make_fx_retrace`;
the pass itself is: scan, and either return the module unchanged or replace
it by the re-trace against the representative example inputs. -/
def apply_decompositions (decompTable : List FxTarget)
    (make_fx_retrace : GraphModule → List ExampleValue → GraphModule)
    (gm : GraphModule) : GraphModule :=
  if needs_decomposition decompTable gm then
    make_fx_retrace gm (build_example_inputs gm)
  else gm

/-- The reconstruction loop of MaxCompiler.__call__ (compiler.py lines
367-374): `for i in range(len(tensor_outputs) + len(self.none_indices))`,
emitting None at recorded positions and the next tensor otherwise; fuel is the
precomputed range bound, `i` the loop counter, `ts` the not-yet-consumed
tensors (tensor_outputs[tensor_idx:]); exhausting the tensors early is the
IndexError of tensor_outputs[tensor_idx]. -/
def reinterleaveGo (none_indices : List Nat) :
    Nat → Nat → List α → Except Err (List (Option α))
  | 0, _, _ => .ok []
  | n + 1, i, ts =>
    if i ∈ none_indices then
      match reinterleaveGo none_indices n (i + 1) ts with
      | .error e => .error e
      | .ok rest => .ok (Option.none :: rest)
    else
      match ts with
      | [] => .error (.uncaught "IndexError" "list index out of range")
      | t :: ts2 =>
        match reinterleaveGo none_indices n (i + 1) ts2 with
        | .error e => .error e
        | .ok rest => .ok (some t :: rest)

/-- The output-reconstruction part of MaxCompiler.__call__ (compiler.py lines
360-377), after execution produced `tensor_outputs`: with a non-empty recorded
none_indices list, re-interleave; otherwise return the tensors as they are
(uniformly injected into Option for a single result type). -/
def maxCompilerCall (none_indices : List Nat) (tensor_outputs : List α) :
    Except Err (List (Option α)) :=
  if none_indices.isEmpty then .ok (tensor_outputs.map some)
  else
    reinterleaveGo none_indices
      (tensor_outputs.length + none_indices.length) 0 tensor_outputs

/-- A small supported-operator pipeline used as an embedding sanity check:
one tensor placeholder, one supported call, one output. -/
def exMapping : List (FxKey × LoweringFn) :=
  [(.packet "aten" "relu", fun args _ => .ok (.str "relu_result"))]

def exPhNode : FxNode :=
  { op := .placeholder, name := "x", target := .str ""
    args := [], kwargs := []
    meta := { example_value := some (.tensor "float32" [.symInt "s0", .int 3] "cpu")
              val := Option.none }
    stack_trace := "" }

def exCallNode : FxNode :=
  { op := .call_function, name := "y"
    target := .opOverload "aten" "relu" "default"
    args := [.node "x"], kwargs := []
    meta := { example_value := Option.none, val := Option.none }
    stack_trace := "tr" }

def exOutNode : FxNode :=
  { op := .output, name := "out", target := .str ""
    args := [.list [.node "y"]], kwargs := []
    meta := { example_value := Option.none, val := Option.none }
    stack_trace := "" }

def exTT : TensorType :=
  { dtype := "float32", shape := [.symbolic "s0", .static 3], device := "cpu" }

/-- Empty node metadata, shared by concrete instances below. -/
def noMeta : FxNodeMeta := { example_value := Option.none, val := Option.none }

/-- The factory state right after lazy graph initialization from the fresh
state with no declared inputs. -/
def emptyGraphState : FactoryState :=
  { initFactoryState with
      graph := some { name := "max_torch_backend", inputTypes := []
                      outputs := Option.none }
      scopeOpens := 1 }

/-- A call node whose aten operator is absent from an empty translation
table. -/
def c1Node : FxNode :=
  { op := .call_function, name := "z", target := .opOverload "aten" "foo" "default"
    args := [], kwargs := [], meta := noMeta, stack_trace := "" }

/-- A lowering function raising a non-RuntimeError exception. -/
def c2Fn : LoweringFn := fun _ _ => .error (.otherExc "ValueError" "boom")

/-- Translation table whose only entry raises a ValueError when invoked. -/
def c2Mapping : List (FxKey × LoweringFn) := [(.packet "aten" "foo", c2Fn)]

/-- A call node hitting the c2Mapping entry. -/
def c2Node : FxNode :=
  { op := .call_function, name := "z", target := .opOverload "aten" "foo" "default"
    args := [], kwargs := [], meta := noMeta, stack_trace := "tr" }

/-- A lowering function raising a RuntimeError. -/
def c2wFn : LoweringFn := fun _ _ => .error (.runtimeError "shape mismatch")

/-- Translation table whose only entry raises a RuntimeError when invoked. -/
def c2wMapping : List (FxKey × LoweringFn) := [(.packet "aten" "bar", c2wFn)]

/-- A call node hitting the c2wMapping entry. -/
def c2wNode : FxNode :=
  { op := .call_function, name := "z", target := .opOverload "aten" "bar" "default"
    args := [], kwargs := [], meta := noMeta, stack_trace := "tr2" }

/-- A get_attr node referencing a dotted module attribute path. -/
def c9Node : FxNode :=
  { op := .get_attr, name := "w", target := .str "sub.w"
    args := [], kwargs := [], meta := noMeta, stack_trace := "" }

/-- A module hierarchy holding the attribute sub.w. -/
def c9Gm : PyObj := .obj [("sub", .obj [("w", .obj [])])]

/-- A placeholder node whose meta has neither "example_value" nor "val". -/
def c10NoMetaNode : FxNode :=
  { op := .placeholder, name := "p", target := .str ""
    args := [], kwargs := [], meta := noMeta, stack_trace := "" }

/-- A placeholder node whose example value is a SymInt, not a tensor. -/
def c10SymIntNode : FxNode :=
  { op := .placeholder, name := "n", target := .str ""
    args := [], kwargs := []
    meta := { example_value := some (.symInt "s7"), val := Option.none }
    stack_trace := "" }

/-- An aten overload present in the decomposition table. -/
def c6Target : FxTarget := .opOverload "aten" "addmm" "default"

/-- A one-entry decomposition table. -/
def c6dt : List FxTarget := [c6Target]

/-- A re-trace that, like make_fx with a decomposition table, returns a module
free of decomposable operators (here: no nodes at all). -/
def c6Retrace : GraphModule → List ExampleValue → GraphModule :=
  fun _ _ => GraphModule.mk []

/-- A module containing one decomposable call node. -/
def c6Gm : GraphModule :=
  GraphModule.mk
    [{ op := .call_function, name := "a", target := c6Target
       args := [], kwargs := [], meta := noMeta, stack_trace := "" }]

/-- The positions, counted from `i`, of the None elements of a converted
output list — exactly what the loop of handle_output records into
none_indices. -/
def nonePosFrom (i : Nat) : List PyVal → List Nat
  | [] => []
  | c :: cs => if c.isNone then i :: nonePosFrom (i + 1) cs else nonePosFrom (i + 1) cs

/-- Modelled from the spec re-interleaving law, for comparison with the
source-derived maxCompilerCall: walk the original output list; a None element
contributes a null result, every other element consumes the next execution
tensor in order. -/
def specReinterleave : List PyVal → List α → List (Option α)
  | [], _ => []
  | c :: cs, ts =>
    if c.isNone then Option.none :: specReinterleave cs ts
    else
      match ts with
      | [] => []
      | t :: ts2 => some t :: specReinterleave cs ts2

/-- The positions, counted from `i`, at which a result list is null. -/
def nonePositionsOpt : Nat → List (Option α) → List Nat
  | _, [] => []
  | i, o :: rest =>
    if o.isNone then i :: nonePositionsOpt (i + 1) rest
    else nonePositionsOpt (i + 1) rest

/-- A freshly opened empty graph. -/
def c4G : MaxGraph :=
  { name := "max_torch_backend", inputTypes := [], outputs := Option.none }

/-- A graph scope freshly opened with no inputs, plus one bound tensor name. -/
def c4St : FactoryState :=
  { initFactoryState with
      graph := some { name := "max_torch_backend", inputTypes := []
                      outputs := Option.none }
      scopeOpens := 1
      tensor_book := [("t", .str "tv")] }

/-- An output node returning [t, None]. -/
def c4OutNode : FxNode :=
  { op := .output, name := "out", target := .str ""
    args := [.list [.node "t", PyVal.none]], kwargs := [], meta := noMeta
    stack_trace := "" }

/-- An output node returning [None, None]. -/
def c4AllNoneNode : FxNode :=
  { op := .output, name := "out", target := .str ""
    args := [.list [PyVal.none, PyVal.none]], kwargs := [], meta := noMeta
    stack_trace := "" }

/-- The scope-counting invariant maintained by the node walk: the graph
context has been entered exactly once if the graph exists, never otherwise. -/
def Qinv (st : FactoryState) : Prop :=
  st.scopeOpens = (if st.graph.isSome then 1 else 0)

/-- Key uniqueness of a modelled Python dict (holds for every real dict). -/
def keysNodup {α : Type _} (l : List (String × α)) : Prop :=
  (l.map Prod.fst).Nodup

/-- A call node whose aten operator is absent from the empty table, hit after
the graph scope has opened. -/
def c7CallNode : FxNode :=
  { op := .call_function, name := "w", target := .opOverload "aten" "baz" "default"
    args := [], kwargs := [], meta := noMeta, stack_trace := "" }

/-- The factory state after processing only the tensor placeholder exPhNode. -/
def phOnlyState : FactoryState :=
  { initFactoryState with
      shape_names_to_input_dim := [("s0", ("x", 0))]
      graph_inputs := [exTT]
      names_to_input_idx := [("x", 0)] }

/-- The final state of the successful one-input pipeline
[exPhNode, exCallNode, exOutNode] under exMapping. -/
def c7FullState : FactoryState :=
  { names_to_input_idx := [("x", 0)]
    shape_names_to_input_dim := [("s0", ("x", 0))]
    graph_inputs := [exTT]
    graph := some { name := "max_torch_backend", inputTypes := [exTT]
                    outputs := some [.str "relu_result"] }
    tensor_book := [("x", .maxValue (.tensorInput 0 exTT)),
                    ("s0", .maxValue (.dim (.symbolic "s0"))),
                    ("y", .str "relu_result")]
    none_indices := []
    scopeOpens := 1
    scopeCloses := 1 }

/-- The state after lazily initializing the graph from phOnlyState: the input
handle and the symbolic dimension are bound in the tensor book. -/
def c8InitState : FactoryState :=
  { phOnlyState with
      graph := some { name := "max_torch_backend", inputTypes := [exTT]
                      outputs := Option.none }
      scopeOpens := 1
      tensor_book := [("x", .maxValue (.tensorInput 0 exTT)),
                      ("s0", .maxValue (.dim (.symbolic "s0")))] }

section Lemmas

/-- Looking a key up right after setting it yields the set value. -/
theorem dictGet_dictSet_self {α : Type _} (l : List (String × α)) (k : String)
    (v : α) : dictGet (dictSet l k v) k = some v := by
  induction l with
  | nil => simp [dictGet, dictSet]
  | cons p rest ih =>
    obtain ⟨k0, v0⟩ := p
    by_cases h : k0 = k
    · subst h; simp [dictGet, dictSet]
    · simp [dictGet, dictSet, h, ih]

/-- Setting one key leaves every other key's lookup unchanged. -/
theorem dictGet_dictSet_ne {α : Type _} (l : List (String × α)) (k k2 : String)
    (v : α) (h : k ≠ k2) : dictGet (dictSet l k v) k2 = dictGet l k2 := by
  induction l with
  | nil => simp [dictGet, dictSet, h]
  | cons p rest ih =>
    obtain ⟨k0, v0⟩ := p
    by_cases h0 : k0 = k
    · subst h0; simp [dictGet, dictSet, h]
    · simp [dictGet, dictSet, h0, ih]

/-- A successful dict lookup comes from an entry of the list. -/
theorem dictGet_mem {α : Type _} (l : List (String × α)) (k : String) (v : α)
    (h : dictGet l k = some v) : (k, v) ∈ l := by
  induction l with
  | nil => simp [dictGet] at h
  | cons p rest ih =>
    obtain ⟨k0, v0⟩ := p
    by_cases h0 : k0 = k
    · subst h0
      simp [dictGet] at h
      subst h
      exact List.mem_cons_self _ _
    · simp [dictGet, h0] at h
      exact List.mem_cons_of_mem _ (ih h)

/-- Element-wise conversion preserves length. -/
theorem convertList_length (book : Book) :
    ∀ xs ys, convertList book xs = .ok ys → ys.length = xs.length := by
  intro xs
  induction xs with
  | nil =>
    intro ys h
    simp only [convertList] at h
    cases h
    rfl
  | cons x xs ih =>
    intro ys h
    simp only [convertList] at h
    cases hx : convert_to_max book x with
    | error e => rw [hx] at h; cases h
    | ok y =>
      rw [hx] at h
      cases hxs : convertList book xs with
      | error e => rw [hxs] at h; cases h
      | ok ys2 =>
        rw [hxs] at h
        cases h
        simp [ih ys2 hxs]

/-- The node walk splits over list append: process the first part, then the
rest from the reached state and shifted index. -/
theorem runNodes_append (mapping : List (FxKey × LoweringFn))
    (xs ys : List FxNode) (st : FactoryState) (idx : Nat) :
    runNodes mapping st idx (xs ++ ys) =
      match runNodes mapping st idx xs with
      | .ok st2 => runNodes mapping st2 (idx + xs.length) ys
      | .error e => .error e := by
  induction xs generalizing st idx with
  | nil => simp [runNodes]
  | cons n xs ih =>
    simp only [List.cons_append, runNodes, List.length_cons]
    cases h : stepNode mapping st idx n with
    | error e => rfl
    | ok st2 =>
      dsimp only
      rw [show xs.append ys = xs ++ ys from rfl, ih]
      have h2 : idx + 1 + xs.length = idx + (xs.length + 1) := by omega
      rw [h2]

/-- The element loop of handle_output computes exactly: the non-None converted
elements in order, and the positions of the None conversions. -/
theorem collectOutputs_spec (book : Book) :
    ∀ xs (i : Nat) cs, convertList book xs = .ok cs →
      collectOutputs book xs i =
        .ok (cs.filter (fun c => !c.isNone), nonePosFrom i cs) := by
  intro xs
  induction xs with
  | nil =>
    intro i cs h
    simp only [convertList] at h
    cases h
    rfl
  | cons x xs ih =>
    intro i cs h
    simp only [convertList] at h
    cases hx : convert_to_max book x with
    | error e => rw [hx] at h; cases h
    | ok y =>
      rw [hx] at h
      cases hxs : convertList book xs with
      | error e => rw [hxs] at h; cases h
      | ok ys =>
        rw [hxs] at h
        cases h
        simp only [collectOutputs, hx, ih (i + 1) ys hxs]
        by_cases hy : y.isNone = true
        · simp [List.filter_cons, nonePosFrom, hy]
        · simp only [Bool.not_eq_true] at hy
          simp [List.filter_cons, nonePosFrom, hy]

/-- Every recorded None position is at least the starting counter. -/
theorem nonePosFrom_ge :
    ∀ (cs : List PyVal) (i j : Nat), j ∈ nonePosFrom i cs → i ≤ j := by
  intro cs
  induction cs with
  | nil => intro i j h; simp [nonePosFrom] at h
  | cons c cs ih =>
    intro i j h
    by_cases hc : c.isNone = true
    · simp only [nonePosFrom, hc, if_pos] at h
      rcases List.mem_cons.mp h with h | h
      · omega
      · have := ih (i + 1) j h; omega
    · simp only [Bool.not_eq_true] at hc
      simp only [nonePosFrom, hc] at h
      have := ih (i + 1) j h
      omega

/-- Splitting a converted output list into its None positions and its concrete
elements loses nothing: the two counts add back to the original length. -/
theorem nonePosFrom_length_split :
    ∀ (cs : List PyVal) (i : Nat),
      (cs.filter (fun c => !c.isNone)).length + (nonePosFrom i cs).length =
        cs.length := by
  intro cs
  induction cs with
  | nil => intro i; rfl
  | cons c cs ih =>
    intro i
    have h2 := ih (i + 1)
    by_cases hc : c.isNone = true
    · simp [List.filter_cons, nonePosFrom, hc]
      omega
    · simp only [Bool.not_eq_true] at hc
      simp [List.filter_cons, nonePosFrom, hc]
      omega

/-- If no None position was recorded, every element of the converted output
list is concrete. -/
theorem nonePosFrom_nil_filter :
    ∀ (cs : List PyVal) (i : Nat), nonePosFrom i cs = [] →
      cs.filter (fun c => !c.isNone) = cs := by
  intro cs
  induction cs with
  | nil => intro i h; rfl
  | cons c cs ih =>
    intro i h
    by_cases hc : c.isNone = true
    · simp [nonePosFrom, hc] at h
    · simp only [Bool.not_eq_true] at hc
      simp only [nonePosFrom, hc] at h
      simp [List.filter_cons, hc, ih (i + 1) h]

/-- With no recorded None positions and matching lengths, the spec
re-interleaving is just the tensor list. -/
theorem specReinterleave_no_none {α : Type _} :
    ∀ (cs : List PyVal) (ts : List α) (i : Nat), nonePosFrom i cs = [] →
      ts.length = cs.length → specReinterleave cs ts = ts.map some := by
  intro cs
  induction cs with
  | nil =>
    intro ts i h hlen
    cases ts with
    | nil => rfl
    | cons t ts => simp at hlen
  | cons c cs ih =>
    intro ts i h hlen
    by_cases hc : c.isNone = true
    · simp [nonePosFrom, hc] at h
    · simp only [Bool.not_eq_true] at hc
      simp only [nonePosFrom, hc] at h
      cases ts with
      | nil => simp at hlen
      | cons t ts =>
        simp only [List.length_cons] at hlen
        have hred : specReinterleave (c :: cs) (t :: ts) =
            some t :: specReinterleave cs ts := by
          simp [specReinterleave, hc]
        rw [hred, List.map_cons, ih ts (i + 1) h (by omega)]

/-- The reconstruction loop of the execution wrapper agrees with the spec
re-interleaving: running it with the recorded None positions of the converted
output list, a fuel equal to the original arity, and one tensor per concrete
position, reproduces the original interleaving. The membership hypothesis lets
the loop's global list be compared against the positions still ahead of the
counter. -/
theorem reinterleaveGo_spec {α : Type _} :
    ∀ (cs : List PyVal) (i : Nat) (ts : List α) (P : List Nat),
      (∀ j, i ≤ j → ((j ∈ P) ↔ j ∈ nonePosFrom i cs)) →
      ts.length = (cs.filter (fun c => !c.isNone)).length →
      reinterleaveGo P cs.length i ts = .ok (specReinterleave cs ts) := by
  intro cs
  induction cs with
  | nil => intro i ts P hP hlen; rfl
  | cons c cs ih =>
    intro i ts P hP hlen
    by_cases hc : c.isNone = true
    · have hiP : i ∈ P := by
        refine (hP i (Nat.le_refl i)).mpr ?_
        simp [nonePosFrom, hc]
      have hrec : reinterleaveGo P cs.length (i + 1) ts =
          .ok (specReinterleave cs ts) := by
        refine ih (i + 1) ts P ?_ ?_
        · intro j hj
          rw [hP j (by omega)]
          simp only [nonePosFrom, hc, if_pos, List.mem_cons]
          constructor
          · rintro (h | h)
            · omega
            · exact h
          · intro h; exact Or.inr h
        · rw [hlen]
          simp [List.filter_cons, hc]
      simp only [List.length_cons, reinterleaveGo, if_pos hiP, hrec]
      simp [specReinterleave, hc]
    · simp only [Bool.not_eq_true] at hc
      have hiP : ¬ i ∈ P := by
        intro hmem
        have := (hP i (Nat.le_refl i)).mp hmem
        simp only [nonePosFrom, hc] at this
        have := nonePosFrom_ge cs (i + 1) i this
        omega
      have hfil : (List.filter (fun c => !c.isNone) (c :: cs)) =
          c :: cs.filter (fun c => !c.isNone) := by
        simp [List.filter_cons, hc]
      rw [hfil] at hlen
      cases ts with
      | nil => simp at hlen
      | cons t ts2 =>
        simp only [List.length_cons] at hlen
        have hrec : reinterleaveGo P cs.length (i + 1) ts2 =
            .ok (specReinterleave cs ts2) := by
          refine ih (i + 1) ts2 P ?_ (by omega)
          intro j hj
          rw [hP j (by omega)]
          simp [nonePosFrom, hc]
        simp only [List.length_cons, reinterleaveGo, if_neg hiP, hrec]
        simp [specReinterleave, hc]

/-- The spec re-interleaving restores the original arity. -/
theorem specReinterleave_length {α : Type _} :
    ∀ (cs : List PyVal) (ts : List α),
      ts.length = (cs.filter (fun c => !c.isNone)).length →
      (specReinterleave cs ts).length = cs.length := by
  intro cs
  induction cs with
  | nil => intro ts hlen; rfl
  | cons c cs ih =>
    intro ts hlen
    by_cases hc : c.isNone = true
    · have hlen2 : ts.length = (cs.filter (fun c => !c.isNone)).length := by
        rw [hlen]; simp [List.filter_cons, hc]
      have hred : specReinterleave (c :: cs) ts =
          Option.none :: specReinterleave cs ts := by
        simp [specReinterleave, hc]
      rw [hred, List.length_cons, ih ts hlen2, List.length_cons]
    · simp only [Bool.not_eq_true] at hc
      rw [show (List.filter (fun c => !c.isNone) (c :: cs)) =
          c :: cs.filter (fun c => !c.isNone) by simp [List.filter_cons, hc]]
        at hlen
      cases ts with
      | nil => simp at hlen
      | cons t ts2 =>
        simp only [List.length_cons] at hlen
        have hred : specReinterleave (c :: cs) (t :: ts2) =
            some t :: specReinterleave cs ts2 := by
          simp [specReinterleave, hc]
        rw [hred, List.length_cons, ih ts2 (by omega), List.length_cons]

/-- The spec re-interleaving is null exactly at the recorded None positions. -/
theorem specReinterleave_nonePositions {α : Type _} :
    ∀ (cs : List PyVal) (ts : List α) (i : Nat),
      ts.length = (cs.filter (fun c => !c.isNone)).length →
      nonePositionsOpt i (specReinterleave cs ts) = nonePosFrom i cs := by
  intro cs
  induction cs with
  | nil => intro ts i hlen; rfl
  | cons c cs ih =>
    intro ts i hlen
    by_cases hc : c.isNone = true
    · have hlen2 : ts.length = (cs.filter (fun c => !c.isNone)).length := by
        rw [hlen]; simp [List.filter_cons, hc]
      have hred : specReinterleave (c :: cs) ts =
          Option.none :: specReinterleave cs ts := by
        simp [specReinterleave, hc]
      rw [hred]
      have hpos : nonePositionsOpt i (Option.none :: specReinterleave cs ts) =
          i :: nonePositionsOpt (i + 1) (specReinterleave cs ts) := by
        simp [nonePositionsOpt]
      rw [hpos, ih ts (i + 1) hlen2]
      simp [nonePosFrom, hc]
    · simp only [Bool.not_eq_true] at hc
      rw [show (List.filter (fun c => !c.isNone) (c :: cs)) =
          c :: cs.filter (fun c => !c.isNone) by simp [List.filter_cons, hc]]
        at hlen
      cases ts with
      | nil => simp at hlen
      | cons t ts2 =>
        simp only [List.length_cons] at hlen
        have hred : specReinterleave (c :: cs) (t :: ts2) =
            some t :: specReinterleave cs ts2 := by
          simp [specReinterleave, hc]
        rw [hred]
        have hpos : nonePositionsOpt i (some t :: specReinterleave cs ts2) =
            nonePositionsOpt (i + 1) (specReinterleave cs ts2) := by
          simp [nonePositionsOpt]
        rw [hpos, ih ts2 (i + 1) (by omega)]
        simp [nonePosFrom, hc]

/-- Dropping the nulls from the spec re-interleaving recovers the execution
tensors in their original relative order. -/
theorem specReinterleave_filterMap {α : Type _} :
    ∀ (cs : List PyVal) (ts : List α),
      ts.length = (cs.filter (fun c => !c.isNone)).length →
      (specReinterleave cs ts).filterMap id = ts := by
  intro cs
  induction cs with
  | nil =>
    intro ts hlen
    cases ts with
    | nil => rfl
    | cons t ts => simp at hlen
  | cons c cs ih =>
    intro ts hlen
    by_cases hc : c.isNone = true
    · have hlen2 : ts.length = (cs.filter (fun c => !c.isNone)).length := by
        rw [hlen]; simp [List.filter_cons, hc]
      have hred : specReinterleave (c :: cs) ts =
          Option.none :: specReinterleave cs ts := by
        simp [specReinterleave, hc]
      rw [hred, List.filterMap_cons]
      simpa using ih ts hlen2
    · simp only [Bool.not_eq_true] at hc
      rw [show (List.filter (fun c => !c.isNone) (c :: cs)) =
          c :: cs.filter (fun c => !c.isNone) by simp [List.filter_cons, hc]]
        at hlen
      cases ts with
      | nil => simp at hlen
      | cons t ts2 =>
        simp only [List.length_cons] at hlen
        have hred : specReinterleave (c :: cs) (t :: ts2) =
            some t :: specReinterleave cs ts2 := by
          simp [specReinterleave, hc]
        rw [hred, List.filterMap_cons]
        simp only [id]
        rw [ih ts2 (by omega)]

/-- handle_placeholder never touches the graph or the scope counters. -/
theorem handle_placeholder_frame (st : FactoryState) (n : FxNode)
    (st' : FactoryState) (h : handle_placeholder st n = .ok st') :
    st'.graph = st.graph ∧ st'.scopeOpens = st.scopeOpens ∧
      st'.scopeCloses = st.scopeCloses := by
  unfold handle_placeholder at h
  cases hm : metaExample n with
  | none => rw [hm] at h; cases h
  | some ev =>
    rw [hm] at h
    cases ev with
    | tensor dt sh dev => cases h; exact ⟨rfl, rfl, rfl⟩
    | symInt s => cases h; exact ⟨rfl, rfl, rfl⟩
    | otherVal t => cases h; exact ⟨rfl, rfl, rfl⟩

/-- handle_call_function only writes the tensor book: graph and scope counters
survive. -/
theorem handle_call_function_frame (mapping : List (FxKey × LoweringFn))
    (st : FactoryState) (i : Nat) (n : FxNode) (st' : FactoryState)
    (h : handle_call_function mapping st i n = .ok st') :
    st'.graph = st.graph ∧ st'.scopeOpens = st.scopeOpens ∧
      st'.scopeCloses = st.scopeCloses := by
  unfold handle_call_function at h
  cases h1 : convertList st.tensor_book n.args with
  | error e => rw [h1] at h; cases h
  | ok cargs =>
    rw [h1] at h
    dsimp only at h
    cases h2 : convertKwargs st.tensor_book n.kwargs with
    | error e => rw [h2] at h; cases h
    | ok ckwargs =>
      rw [h2] at h
      dsimp only at h
      cases h3 : keyLookup mapping (canonKey n.target) with
      | none => rw [h3] at h; cases h
      | some f =>
        rw [h3] at h
        dsimp only at h
        cases h4 : f cargs ckwargs with
        | error e =>
          rw [h4] at h
          cases e <;> cases h
        | ok out =>
          rw [h4] at h
          cases h
          exact ⟨rfl, rfl, rfl⟩

/-- A successful handle_output requires an open graph, keeps it (and the open
counter), and closes the scope exactly once more. -/
theorem handle_output_frame (st : FactoryState) (n : FxNode)
    (st' : FactoryState) (h : handle_output st n = .ok st') :
    st.graph.isSome = true ∧ st'.graph.isSome = true ∧
      st'.scopeOpens = st.scopeOpens ∧
      st'.scopeCloses = st.scopeCloses + 1 := by
  unfold handle_output at h
  cases h1 : outputArgList n with
  | none => rw [h1] at h; cases h
  | some xs =>
    rw [h1] at h
    dsimp only at h
    cases h2 : collectOutputs st.tensor_book xs 0 with
    | error e => rw [h2] at h; cases h
    | ok p =>
      obtain ⟨outs, nones⟩ := p
      rw [h2] at h
      dsimp only at h
      cases outs with
      | nil => cases h
      | cons o os =>
        dsimp only at h
        cases h3 : st.graph with
        | none => rw [h3] at h; cases h
        | some g =>
          rw [h3] at h
          cases h
          exact ⟨rfl, rfl, rfl, rfl⟩

/-- A successful initialize_graph starts from a graphless state, creates the
graph, bumps the open counter once and leaves the close counter alone. -/
theorem initialize_graph_ok (st st' : FactoryState)
    (h : initialize_graph st = .ok st') :
    st.graph = Option.none ∧ st'.graph.isSome = true ∧
      st'.scopeOpens = st.scopeOpens + 1 ∧
      st'.scopeCloses = st.scopeCloses := by
  unfold initialize_graph at h
  cases hg : st.graph with
  | some g => rw [hg] at h; cases h
  | none =>
    rw [hg] at h
    dsimp only at h
    cases h1 : bindInputs (graphInputsOf st.graph_inputs) st.names_to_input_idx
        st.tensor_book with
    | error eb => obtain ⟨e1, b1⟩ := eb; rw [h1] at h; cases h
    | ok book1 =>
      rw [h1] at h
      dsimp only at h
      cases h2 : bindShapes st.shape_names_to_input_dim book1 with
      | error eb => obtain ⟨e2, b2⟩ := eb; rw [h2] at h; cases h
      | ok book2 =>
        rw [h2] at h
        cases h
        exact ⟨rfl, rfl, rfl, rfl⟩

/-- The lazy-creation guard preserves the scope invariant, ends with an open
graph, and never closes the scope. -/
theorem ensureGraph_Q (st st1 : FactoryState) (hQ : Qinv st)
    (h : ensureGraph st = .ok st1) :
    Qinv st1 ∧ st1.graph.isSome = true ∧
      st1.scopeCloses = st.scopeCloses := by
  unfold ensureGraph at h
  cases hg : st.graph with
  | none =>
    rw [hg] at h
    simp only [Option.isNone_none, if_true] at h
    obtain ⟨hnone, hsome, hopen, hclose⟩ := initialize_graph_ok st st1 h
    refine ⟨?_, hsome, hclose⟩
    unfold Qinv at hQ ⊢
    rw [hsome, hopen, hQ, hg]
    simp
  | some g =>
    rw [hg] at h
    simp only [Option.isNone_some, Bool.false_eq_true, if_false] at h
    cases h
    exact ⟨hQ, by rw [hg]; rfl, rfl⟩

/-- One node-walk step preserves the scope invariant. -/
theorem stepNode_Q (mapping : List (FxKey × LoweringFn)) (st : FactoryState)
    (i : Nat) (n : FxNode) (st' : FactoryState) (hQ : Qinv st)
    (h : stepNode mapping st i n = .ok st') : Qinv st' := by
  cases hop : n.op with
  | placeholder =>
    simp only [stepNode, hop] at h
    obtain ⟨hg, ho, hc⟩ := handle_placeholder_frame st n st' h
    unfold Qinv at hQ ⊢
    rw [hg, ho]
    exact hQ
  | call_function =>
    simp only [stepNode, hop] at h
    cases he : ensureGraph st with
    | error e => rw [he] at h; cases h
    | ok st1 =>
      rw [he] at h
      obtain ⟨hQ1, hs1, hc1⟩ := ensureGraph_Q st st1 hQ he
      obtain ⟨hg, ho, hc⟩ := handle_call_function_frame mapping st1 i n st' h
      unfold Qinv at hQ1 ⊢
      rw [hg, ho]
      exact hQ1
  | call_method =>
    simp only [stepNode, hop] at h
    cases he : ensureGraph st with
    | error e => rw [he] at h; cases h
    | ok st1 =>
      rw [he] at h
      obtain ⟨hQ1, hs1, hc1⟩ := ensureGraph_Q st st1 hQ he
      obtain ⟨hg, ho, hc⟩ := handle_call_function_frame mapping st1 i n st' h
      unfold Qinv at hQ1 ⊢
      rw [hg, ho]
      exact hQ1
  | get_attr =>
    simp only [stepNode, hop] at h
    cases he : ensureGraph st with
    | error e => rw [he] at h; cases h
    | ok st1 =>
      rw [he] at h
      cases h
  | output =>
    simp only [stepNode, hop] at h
    cases he : ensureGraph st with
    | error e => rw [he] at h; cases h
    | ok st1 =>
      rw [he] at h
      obtain ⟨hQ1, hs1, hc1⟩ := ensureGraph_Q st st1 hQ he
      obtain ⟨hpre, hpost, ho, hc⟩ := handle_output_frame st1 n st' h
      unfold Qinv at hQ1 ⊢
      rw [hpost, ho, hQ1, hs1]
  | other s =>
    simp only [stepNode, hop] at h
    cases he : ensureGraph st with
    | error e => rw [he] at h; cases h
    | ok st1 =>
      rw [he] at h
      cases h

/-- The node walk preserves the scope invariant. -/
theorem runNodes_Q (mapping : List (FxKey × LoweringFn)) :
    ∀ (ns : List FxNode) (st : FactoryState) (i : Nat) (st' : FactoryState),
      Qinv st → runNodes mapping st i ns = .ok st' → Qinv st' := by
  intro ns
  induction ns with
  | nil =>
    intro st i st' hQ h
    simp only [runNodes] at h
    cases h
    exact hQ
  | cons n ns ih =>
    intro st i st' hQ h
    simp only [runNodes] at h
    cases hs : stepNode mapping st i n with
    | error e => rw [hs] at h; cases h
    | ok st2 =>
      rw [hs] at h
      exact ih st2 (i + 1) st' (stepNode_Q mapping st i n st2 hQ hs) h

/-- A step on a non-output node never closes the scope. -/
theorem stepNode_noClose (mapping : List (FxKey × LoweringFn))
    (st : FactoryState) (i : Nat) (n : FxNode) (st' : FactoryState)
    (hop : n.op ≠ .output) (h : stepNode mapping st i n = .ok st') :
    st'.scopeCloses = st.scopeCloses := by
  cases hopc : n.op with
  | placeholder =>
    simp only [stepNode, hopc] at h
    exact (handle_placeholder_frame st n st' h).2.2
  | call_function =>
    simp only [stepNode, hopc] at h
    cases he : ensureGraph st with
    | error e => rw [he] at h; cases h
    | ok st1 =>
      rw [he] at h
      have hc1 : st1.scopeCloses = st.scopeCloses := by
        unfold ensureGraph at he
        cases hg : st.graph with
        | none =>
          rw [hg] at he
          simp only [Option.isNone_none, if_true] at he
          exact (initialize_graph_ok st st1 he).2.2.2
        | some g =>
          rw [hg] at he
          simp only [Option.isNone_some, Bool.false_eq_true, if_false] at he
          cases he
          rfl
      rw [(handle_call_function_frame mapping st1 i n st' h).2.2, hc1]
  | call_method =>
    simp only [stepNode, hopc] at h
    cases he : ensureGraph st with
    | error e => rw [he] at h; cases h
    | ok st1 =>
      rw [he] at h
      have hc1 : st1.scopeCloses = st.scopeCloses := by
        unfold ensureGraph at he
        cases hg : st.graph with
        | none =>
          rw [hg] at he
          simp only [Option.isNone_none, if_true] at he
          exact (initialize_graph_ok st st1 he).2.2.2
        | some g =>
          rw [hg] at he
          simp only [Option.isNone_some, Bool.false_eq_true, if_false] at he
          cases he
          rfl
      rw [(handle_call_function_frame mapping st1 i n st' h).2.2, hc1]
  | get_attr =>
    simp only [stepNode, hopc] at h
    cases he : ensureGraph st with
    | error e => rw [he] at h; cases h
    | ok st1 => rw [he] at h; cases h
  | output => exact absurd hopc hop
  | other s =>
    simp only [stepNode, hopc] at h
    cases he : ensureGraph st with
    | error e => rw [he] at h; cases h
    | ok st1 => rw [he] at h; cases h

/-- A walk over output-free nodes never closes the scope. -/
theorem runNodes_noClose (mapping : List (FxKey × LoweringFn)) :
    ∀ (ns : List FxNode) (st : FactoryState) (i : Nat) (st' : FactoryState),
      (∀ n ∈ ns, n.op ≠ .output) → runNodes mapping st i ns = .ok st' →
      st'.scopeCloses = st.scopeCloses := by
  intro ns
  induction ns with
  | nil =>
    intro st i st' hout h
    simp only [runNodes] at h
    cases h
    rfl
  | cons n ns ih =>
    intro st i st' hout h
    simp only [runNodes] at h
    cases hs : stepNode mapping st i n with
    | error e => rw [hs] at h; cases h
    | ok st2 =>
      rw [hs] at h
      rw [ih st2 (i + 1) st' (fun m hm => hout m (List.mem_cons_of_mem n hm)) h,
        stepNode_noClose mapping st i n st2
          (hout n (List.mem_cons_self n ns)) hs]

/-- A walk over placeholder-only nodes leaves graph and counters untouched. -/
theorem runNodes_placeholders (mapping : List (FxKey × LoweringFn)) :
    ∀ (ns : List FxNode) (st : FactoryState) (i : Nat) (st' : FactoryState),
      (∀ n ∈ ns, n.op = .placeholder) → runNodes mapping st i ns = .ok st' →
      st'.graph = st.graph ∧ st'.scopeOpens = st.scopeOpens ∧
        st'.scopeCloses = st.scopeCloses := by
  intro ns
  induction ns with
  | nil =>
    intro st i st' hph h
    simp only [runNodes] at h
    cases h
    exact ⟨rfl, rfl, rfl⟩
  | cons n ns ih =>
    intro st i st' hph h
    simp only [runNodes] at h
    cases hs : stepNode mapping st i n with
    | error e => rw [hs] at h; cases h
    | ok st2 =>
      rw [hs] at h
      have hstep : st2.graph = st.graph ∧ st2.scopeOpens = st.scopeOpens ∧
          st2.scopeCloses = st.scopeCloses := by
        have hop := hph n (List.mem_cons_self n ns)
        simp only [stepNode, hop] at hs
        exact handle_placeholder_frame st n st2 hs
      obtain ⟨h1, h2, h3⟩ :=
        ih st2 (i + 1) st' (fun m hm => hph m (List.mem_cons_of_mem n hm)) h
      exact ⟨h1.trans hstep.1, h2.trans hstep.2.1, h3.trans hstep.2.2⟩

/-- The MAX shape built for a placeholder is the dimension-wise translation of
the torch shape, independently of the registration map. -/
theorem buildShape_fst (dims : List TorchDim) (tname : String) :
    ∀ (j : Nat) (m : List (String × (String × Nat))),
      (buildShape tname dims j m).1 = dims.map dimToMax := by
  induction dims with
  | nil => intro j m; rfl
  | cons d rest ih =>
    intro j m
    cases d with
    | int n => simp [buildShape, dimToMax, ih]
    | symInt s => simp [buildShape, dimToMax, ih]

/-- Dimensions not mentioning a symbolic name leave its registration alone. -/
theorem buildShape_not_mem (tname s : String) :
    ∀ (dims : List TorchDim) (j : Nat) (m : List (String × (String × Nat))),
      TorchDim.symInt s ∉ dims →
      dictGet (buildShape tname dims j m).2 s = dictGet m s := by
  intro dims
  induction dims with
  | nil => intro j m h; rfl
  | cons d rest ih =>
    intro j m h
    cases d with
    | int n =>
      simp only [buildShape]
      exact ih (j + 1) m (fun hm => h (List.mem_cons_of_mem _ hm))
    | symInt s0 =>
      have hs0 : s0 ≠ s := by
        intro he
        exact h (he ▸ List.mem_cons_self _ _)
      simp only [buildShape]
      rw [ih (j + 1) (dictSet m s0 (tname, j))
          (fun hm => h (List.mem_cons_of_mem _ hm)),
        dictGet_dictSet_ne m s0 s _ hs0]

/-- A symbolic name occurring at exactly one dimension index ends up
registered to the producing tensor name and that index (offset by the
starting counter). -/
theorem buildShape_unique (tname s : String) :
    ∀ (dims : List TorchDim) (base : Nat)
      (m : List (String × (String × Nat))) (j : Nat),
      dims.get? j = some (.symInt s) →
      (∀ j2, dims.get? j2 = some (.symInt s) → j2 = j) →
      dictGet (buildShape tname dims base m).2 s = some (tname, base + j) := by
  intro dims
  induction dims with
  | nil => intro base m j hget huniq; simp [List.get?] at hget
  | cons d rest ih =>
    intro base m j hget huniq
    cases j with
    | zero =>
      have hd : d = .symInt s := by
        simpa using hget
      subst hd
      have hnot : TorchDim.symInt s ∉ rest := by
        intro hmem
        obtain ⟨k, hk⟩ := List.mem_iff_get?.mp hmem
        have := huniq (k + 1) (by simpa using hk)
        omega
      simp only [buildShape]
      rw [buildShape_not_mem tname s rest (base + 1)
          (dictSet m s (tname, base)) hnot,
        dictGet_dictSet_self]
      simp
    | succ j2 =>
      have hget2 : rest.get? j2 = some (.symInt s) := by simpa using hget
      have huniq2 : ∀ k, rest.get? k = some (.symInt s) → k = j2 := by
        intro k hk
        have := huniq (k + 1) (by simpa using hk)
        omega
      cases d with
      | int n =>
        simp only [buildShape]
        rw [show base + (j2 + 1) = base + 1 + j2 from by omega]
        exact ih (base + 1) m j2 hget2 huniq2
      | symInt s0 =>
        have hs0 : s0 ≠ s := by
          intro he
          subst he
          have := huniq 0 (by simp)
          omega
        simp only [buildShape]
        rw [show base + (j2 + 1) = base + 1 + j2 from by omega]
        exact ih (base + 1) (dictSet m s0 (tname, base)) j2 hget2 huniq2

/-- Binding inputs for other names leaves a name's book entry alone. -/
theorem bindInputs_pres :
    ∀ (l : List (String × Nat)) (inputs : List PyVal) (book book' : Book)
      (x : String),
      bindInputs inputs l book = .ok book' → (∀ p ∈ l, p.1 ≠ x) →
      dictGet book' x = dictGet book x := by
  intro l
  induction l with
  | nil =>
    intro inputs book book' x h hx
    simp only [bindInputs] at h
    cases h
    rfl
  | cons p rest ih =>
    intro inputs book book' x h hx
    obtain ⟨t0, i0⟩ := p
    simp only [bindInputs] at h
    cases hv : inputs.get? i0 with
    | none => rw [hv] at h; cases h
    | some v =>
      rw [hv] at h
      dsimp only at h
      rw [ih inputs (dictSet book t0 v) book' x h
          (fun q hq => hx q (List.mem_cons_of_mem _ hq)),
        dictGet_dictSet_ne book t0 x v (hx (t0, i0) (List.mem_cons_self _ _))]

/-- An input-binding entry, with the dict's unique keys, ends with the name
bound to the graph input at the recorded index. -/
theorem bindInputs_mem :
    ∀ (l : List (String × Nat)) (inputs : List PyVal) (book book' : Book)
      (name : String) (idx : Nat),
      bindInputs inputs l book = .ok book' → keysNodup l → (name, idx) ∈ l →
      ∃ v, inputs.get? idx = some v ∧ dictGet book' name = some v := by
  intro l
  induction l with
  | nil =>
    intro inputs book book' name idx h hnd hmem
    simp at hmem
  | cons p rest ih =>
    intro inputs book book' name idx h hnd hmem
    obtain ⟨t0, i0⟩ := p
    simp only [bindInputs] at h
    cases hv : inputs.get? i0 with
    | none => rw [hv] at h; cases h
    | some v =>
      rw [hv] at h
      dsimp only at h
      have hnd2 := hnd
      unfold keysNodup at hnd2
      rw [List.map_cons, List.nodup_cons] at hnd2
      rcases List.mem_cons.mp hmem with heq | hmem2
      · cases heq
        refine ⟨v, hv, ?_⟩
        have hrest : ∀ q ∈ rest, q.1 ≠ name := by
          intro q hq he
          exact hnd2.1 (List.mem_map.mpr ⟨q, hq, he⟩)
        rw [bindInputs_pres rest inputs _ book' name h hrest,
          dictGet_dictSet_self]
      · exact ih inputs (dictSet book t0 v) book' name idx h hnd2.2 hmem2

/-- Binding shape names for other keys leaves a key's book entry alone. -/
theorem bindShapes_pres :
    ∀ (l : List (String × (String × Nat))) (book book' : Book) (x : String),
      bindShapes l book = .ok book' → (∀ p ∈ l, p.1 ≠ x) →
      dictGet book' x = dictGet book x := by
  intro l
  induction l with
  | nil =>
    intro book book' x h hx
    simp only [bindShapes] at h
    cases h
    rfl
  | cons p rest ih =>
    intro book book' x h hx
    obtain ⟨s0, t0, d0⟩ := p
    simp only [bindShapes] at h
    cases hv : dictGet book t0 with
    | none => rw [hv] at h; cases h
    | some v =>
      rw [hv] at h
      dsimp only at h
      cases hsi : shapeIndex v d0 with
      | error e => rw [hsi] at h; cases h
      | ok sv =>
        rw [hsi] at h
        dsimp only at h
        rw [ih (dictSet book s0 sv) book' x h
            (fun q hq => hx q (List.mem_cons_of_mem _ hq)),
          dictGet_dictSet_ne book s0 x sv (hx (s0, t0, d0) (List.mem_cons_self _ _))]

/-- A shape-binding entry whose producing tensor name is bound and never
shadowed by a shape key ends with the symbolic name bound to the indexed
shape dimension of that tensor value. -/
theorem bindShapes_mem :
    ∀ (l : List (String × (String × Nat))) (book book' : Book) (s t : String)
      (d : Nat) (vt sv : PyVal),
      bindShapes l book = .ok book' → keysNodup l → (s, (t, d)) ∈ l →
      (∀ p ∈ l, p.1 ≠ t) → dictGet book t = some vt →
      shapeIndex vt d = .ok sv → dictGet book' s = some sv := by
  intro l
  induction l with
  | nil =>
    intro book book' s t d vt sv h hnd hmem hne hvt hsi
    simp at hmem
  | cons p rest ih =>
    intro book book' s t d vt sv h hnd hmem hne hvt hsi
    obtain ⟨s0, t0, d0⟩ := p
    simp only [bindShapes] at h
    cases hv0 : dictGet book t0 with
    | none => rw [hv0] at h; cases h
    | some v0 =>
      rw [hv0] at h
      dsimp only at h
      cases hsi0 : shapeIndex v0 d0 with
      | error e => rw [hsi0] at h; cases h
      | ok sv0 =>
        rw [hsi0] at h
        dsimp only at h
        have hnd2 := hnd
        unfold keysNodup at hnd2
        rw [List.map_cons, List.nodup_cons] at hnd2
        rcases List.mem_cons.mp hmem with heq | hmem2
        · cases heq
          have hv0v : v0 = vt := by
            rw [hv0] at hvt
            exact Option.some.inj hvt
          subst hv0v
          have hsvv : sv0 = sv := by
            rw [hsi0] at hsi
            cases hsi
            rfl
          subst hsvv
          have hrest : ∀ q ∈ rest, q.1 ≠ s := by
            intro q hq he
            exact hnd2.1 (List.mem_map.mpr ⟨q, hq, he⟩)
          rw [bindShapes_pres rest _ book' s h hrest, dictGet_dictSet_self]
        · refine ih (dictSet book s0 sv0) book' s t d vt sv h hnd2.2 hmem2
            (fun q hq => hne q (List.mem_cons_of_mem _ hq)) ?_ hsi
          rw [dictGet_dictSet_ne book s0 t sv0
            (hne (s0, t0, d0) (List.mem_cons_self _ _)), hvt]

/-- graph.inputs indexed: the handle at position j carries index i + j and the
j-th declared input type. -/
theorem giGo_get :
    ∀ (tys : List TensorType) (i j : Nat),
      (giGo i tys).get? j =
        (tys.get? j).map (fun ty => PyVal.maxValue (.tensorInput (i + j) ty)) := by
  intro tys
  induction tys with
  | nil => intro i j; simp [giGo]
  | cons ty rest ih =>
    intro i j
    cases j with
    | zero => simp [giGo]
    | succ j2 =>
      simp only [giGo, List.get?_cons_succ]
      rw [ih (i + 1) j2, show i + 1 + j2 = i + (j2 + 1) from by omega]

/-- graph.inputs at an index is the handle carrying that index and the
declared type there. -/
theorem graphInputsOf_get (tys : List TensorType) (j : Nat) :
    (graphInputsOf tys).get? j =
      (tys.get? j).map (fun ty => PyVal.maxValue (.tensorInput j ty)) := by
  unfold graphInputsOf
  rw [giGo_get tys 0 j]
  simp

/-- A successful initialize_graph runs the two book-filling loops in order on
the initial book, ending in the final tensor book. -/
theorem initialize_graph_books (st st' : FactoryState)
    (h : initialize_graph st = .ok st') :
    ∃ book1,
      bindInputs (graphInputsOf st.graph_inputs) st.names_to_input_idx
          st.tensor_book = .ok book1
      ∧ bindShapes st.shape_names_to_input_dim book1 = .ok st'.tensor_book := by
  unfold initialize_graph at h
  cases hg : st.graph with
  | some g => rw [hg] at h; cases h
  | none =>
    rw [hg] at h
    dsimp only at h
    cases h1 : bindInputs (graphInputsOf st.graph_inputs) st.names_to_input_idx
        st.tensor_book with
    | error eb => obtain ⟨e1, b1⟩ := eb; rw [h1] at h; cases h
    | ok book1 =>
      rw [h1] at h
      dsimp only at h
      cases h2 : bindShapes st.shape_names_to_input_dim book1 with
      | error eb => obtain ⟨e2, b2⟩ := eb; rw [h2] at h; cases h
      | ok book2 =>
        rw [h2] at h
        cases h
        exact ⟨book1, rfl, h2⟩

end Lemmas

/-- Claim C1: for every Call node whose canonicalized operator key is absent
from the translation table, compilation fails with the UnsupportedOperator
error naming the node's index and the qualified operator name, the whole
lowering aborts (the error is returned no matter what nodes follow), and no
graph handle is produced (the result is an error, not a compiled state). -/
theorem C1_unsupported_operator_fatal (mapping : List (FxKey × LoweringFn))
    (pre post : List FxNode) (node : FxNode) (st st1 : FactoryState)
    (cargs : List PyVal) (ckwargs : List (String × PyVal))
    (hpre : runNodes mapping initFactoryState 0 pre = .ok st)
    (hop : node.op = .call_function ∨ node.op = .call_method)
    (hinit : ensureGraph st = .ok st1)
    (hargs : convertList st1.tensor_book node.args = .ok cargs)
    (hkw : convertKwargs st1.tensor_book node.kwargs = .ok ckwargs)
    (hmiss : keyLookup mapping (canonKey node.target) = Option.none) :
    create_graph mapping (pre ++ node :: post) =
      .error (.unsupportedOperator pre.length
        (get_fully_qualified_name node.target), st1) := by
  unfold create_graph
  rw [runNodes_append, hpre]
  simp only [Nat.zero_add]
  have hstep : stepNode mapping st pre.length node =
      .error (.unsupportedOperator pre.length
        (get_fully_qualified_name node.target), st1) := by
    rcases hop with h | h <;>
      simp [stepNode, h, hinit, handle_call_function, hargs, hkw, hmiss]
  simp [runNodes, hstep]

/-- Witness for C1 at a concrete input: a single aten call node against the
empty translation table. -/
theorem C1_witness :
    create_graph [] [c1Node] =
      .error (.unsupportedOperator 0 (get_fully_qualified_name c1Node.target),
        emptyGraphState) :=
  C1_unsupported_operator_fatal [] [] [] c1Node initFactoryState emptyGraphState
    [] [] rfl (Or.inl rfl) rfl rfl rfl rfl

/-- Claim C2, counterexample: the claim says every failure raised by the
invoked lowering function is wrapped as a LoweringFailed error, whatever its
exception class. Here the looked-up lowering function raises a ValueError and
the source's `except RuntimeError` does not catch it: the error propagates
uncaught and unwrapped, with none of the LoweringFailed context attached. -/
theorem C2_counterexample :
    handle_call_function c2Mapping initFactoryState 3 c2Node =
      .error (.uncaught "ValueError" "boom", initFactoryState) := rfl

/-- Claim C2 as amended: only failures of class RuntimeError raised by the
invoked lowering function are wrapped as LoweringFailed (carrying node index,
qualified operator name, the converted args and kwargs snapshot, the original
error message and the node's recorded trace) and re-raised fatally; any other
exception class propagates out unwrapped. -/
theorem C2_only_runtime_errors_wrapped (mapping : List (FxKey × LoweringFn))
    (st : FactoryState) (idx : Nat) (node : FxNode) (cargs : List PyVal)
    (ckwargs : List (String × PyVal)) (f : LoweringFn)
    (hargs : convertList st.tensor_book node.args = .ok cargs)
    (hkw : convertKwargs st.tensor_book node.kwargs = .ok ckwargs)
    (hf : keyLookup mapping (canonKey node.target) = some f) :
    (∀ msg, f cargs ckwargs = .error (.runtimeError msg) →
       handle_call_function mapping st idx node =
         .error (.loweringFailed idx (get_fully_qualified_name node.target)
           cargs ckwargs msg node.stack_trace, st))
    ∧ (∀ ename emsg, f cargs ckwargs = .error (.otherExc ename emsg) →
       handle_call_function mapping st idx node =
         .error (.uncaught ename emsg, st)) := by
  constructor
  · intro msg hrun
    simp [handle_call_function, hargs, hkw, hf, hrun]
  · intro ename emsg hexc
    simp [handle_call_function, hargs, hkw, hf, hexc]

/-- Witness for the amended C2 at concrete inputs: a RuntimeError is wrapped
with full context, a ValueError escapes unwrapped. -/
theorem C2_witness :
    (handle_call_function c2wMapping initFactoryState 1 c2wNode =
      .error (.loweringFailed 1 (get_fully_qualified_name c2wNode.target)
        [] [] "shape mismatch" "tr2", initFactoryState))
    ∧ (handle_call_function c2Mapping initFactoryState 3 c2Node =
      .error (.uncaught "ValueError" "boom", initFactoryState)) :=
  ⟨(C2_only_runtime_errors_wrapped c2wMapping initFactoryState 1 c2wNode
      [] [] c2wFn rfl rfl rfl).1 "shape mismatch" rfl,
   (C2_only_runtime_errors_wrapped c2Mapping initFactoryState 3 c2Node
      [] [] c2Fn rfl rfl rfl).2 "ValueError" "boom" rfl⟩

/-- Claim C3, counterexample: the claim's closed pass-through set is node
references, int/float/string scalars, device and dtype tags, None, Ellipsis,
slices, sequences and tuples, with every other runtime type raising
UnsupportedValueType. A torch.nn.Module is outside that set, yet
convert_to_max passes it through silently instead of raising. -/
theorem C3_counterexample :
    convert_to_max [] (.module 0) = .ok (.module 0) := rfl

/-- Claim C3 as amended: the recursive converter resolves bound node
references; passes int/float/string scalars, device and dtype tags, None,
Ellipsis — and also torch.nn.Module instances — through unchanged; rebuilds
slices from recursively converted bounds; maps ordered sequences and tuples
element-wise, preserving order and length; and rejects every remaining
runtime type with an UnsupportedValueType error naming the concrete type. -/
theorem C3_convert_characterization :
    (∀ book n v, dictGet book n = some v →
       convert_to_max book (.node n) = .ok v)
    ∧ (∀ book s, convert_to_max book (.str s) = .ok (.str s))
    ∧ (∀ book n, convert_to_max book (.int n) = .ok (.int n))
    ∧ (∀ book b, convert_to_max book (.float b) = .ok (.float b))
    ∧ (∀ book a b c a2 b2 c2, convert_to_max book a = .ok a2 →
         convert_to_max book b = .ok b2 → convert_to_max book c = .ok c2 →
         convert_to_max book (.slice a b c) = .ok (.slice a2 b2 c2))
    ∧ (∀ book xs ys, convertList book xs = .ok ys →
         convert_to_max book (.list xs) = .ok (.list ys) ∧ ys.length = xs.length)
    ∧ (∀ book xs ys, convertList book xs = .ok ys →
         convert_to_max book (.tuple xs) = .ok (.tuple ys) ∧ ys.length = xs.length)
    ∧ (∀ book d, convert_to_max book (.device d) = .ok (.device d))
    ∧ (∀ book d, convert_to_max book (.dtype d) = .ok (.dtype d))
    ∧ (∀ book, convert_to_max book .none = .ok .none)
    ∧ (∀ book, convert_to_max book .ellipsis = .ok .ellipsis)
    ∧ (∀ book m, convert_to_max book (.module m) = .ok (.module m))
    ∧ (∀ book v, convert_to_max book (.maxValue v) =
         .error (.unsupportedValueType (maxValTypeName v)))
    ∧ (∀ book t, convert_to_max book (.other t) =
         .error (.unsupportedValueType t)) := by
  refine ⟨?_, ?_, ?_, ?_, ?_, ?_, ?_, ?_, ?_, ?_, ?_, ?_, ?_, ?_⟩
  · intro book n v h; simp [convert_to_max, h]
  · intro book s; rfl
  · intro book n; rfl
  · intro book b; rfl
  · intro book a b c a2 b2 c2 ha hb hc
    simp [convert_to_max, ha, hb, hc]
  · intro book xs ys h
    exact ⟨by simp [convert_to_max, h], convertList_length book xs ys h⟩
  · intro book xs ys h
    exact ⟨by simp [convert_to_max, h], convertList_length book xs ys h⟩
  · intro book d; rfl
  · intro book d; rfl
  · intro book; rfl
  · intro book; rfl
  · intro book m; rfl
  · intro book v; rfl
  · intro book t; rfl

/-- Witness for the amended C3 at concrete inputs, exercising the
hypothesis-bearing branches: a bound node reference, a rebuilt slice, and an
element-wise converted list and tuple with their length facts. -/
theorem C3_witness :
    (convert_to_max [("x", .int 3)] (.node "x") = .ok (.int 3))
    ∧ (convert_to_max [("x", .int 3)]
        (.slice (.node "x") .none (.int 2)) = .ok (.slice (.int 3) .none (.int 2)))
    ∧ (convert_to_max [("x", .int 3)] (.list [.node "x", .str "a"]) =
         .ok (.list [.int 3, .str "a"])
       ∧ ([PyVal.int 3, PyVal.str "a"] : List PyVal).length =
           ([PyVal.node "x", PyVal.str "a"] : List PyVal).length)
    ∧ (convert_to_max [("x", .int 3)] (.tuple [.node "x"]) =
         .ok (.tuple [.int 3])
       ∧ ([PyVal.int 3] : List PyVal).length = ([PyVal.node "x"] : List PyVal).length) :=
  ⟨C3_convert_characterization.1 [("x", .int 3)] "x" (.int 3) rfl,
   C3_convert_characterization.2.2.2.2.1 [("x", .int 3)]
     (.node "x") .none (.int 2) (.int 3) .none (.int 2) rfl rfl rfl,
   C3_convert_characterization.2.2.2.2.2.1 [("x", .int 3)]
     [.node "x", .str "a"] [.int 3, .str "a"] rfl,
   C3_convert_characterization.2.2.2.2.2.2.1 [("x", .int 3)]
     [.node "x"] [.int 3] rfl⟩

/-- Claim C9, code bug: processing an AttributeAccess node is meant to fetch
the named constant through fetch_attr and bind it, and the module-level
fetch_attr does resolve dotted paths exactly as claimed (second and third
conjuncts) — but handle_get_attr invokes `self.fetch_attr` on a _GraphFactory
that has no such attribute (and holds no GraphModule to pass it), so every
get_attr node aborts compilation with an AttributeError before any fetching
or binding happens (first conjunct). -/
theorem C9_get_attr_attribute_error :
    (create_graph [] [c9Node] =
      .error (.uncaught "AttributeError"
        "_GraphFactory object has no attribute fetch_attr", emptyGraphState))
    ∧ (fetch_attr c9Gm "sub.w" = .ok (.obj []))
    ∧ (fetch_attr c9Gm "sub.x" = .error (.fetchAttrMissing "sub.x")) :=
  ⟨rfl, rfl, rfl⟩

/-- Claim C10: a placeholder whose meta has neither "example_value" nor "val"
makes the handler read the never-assigned local example_value, failing with an
uncontrolled UnboundLocalError outside the specified error taxonomy; when one
of the two keys is present the handler always succeeds, and any non-tensor
example value is silently skipped, leaving the factory state — in particular
the declared graph inputs — completely unchanged. -/
theorem C10_placeholder_meta_precondition :
    (∀ st node, node.meta.example_value = Option.none →
       node.meta.val = Option.none →
       handle_placeholder st node =
         .error (.uncaught "UnboundLocalError"
           "local variable example_value referenced before assignment", st))
    ∧ (∀ st node ev, metaExample node = some ev →
        ∃ st2, handle_placeholder st node = .ok st2)
    ∧ (∀ st node ev, metaExample node = some ev →
        (∀ dt sh dev, ev ≠ .tensor dt sh dev) →
        handle_placeholder st node = .ok st) := by
  refine ⟨?_, ?_, ?_⟩
  · intro st node h1 h2
    simp [handle_placeholder, metaExample, h1, h2]
  · intro st node ev h
    cases ev with
    | tensor dt sh dev =>
      simp only [handle_placeholder, h]
      exact ⟨_, rfl⟩
    | symInt s => exact ⟨st, by simp [handle_placeholder, h]⟩
    | otherVal t => exact ⟨st, by simp [handle_placeholder, h]⟩
  · intro st node ev h hne
    cases ev with
    | tensor dt sh dev => exact absurd rfl (hne dt sh dev)
    | symInt s => simp [handle_placeholder, h]
    | otherVal t => simp [handle_placeholder, h]

/-- Witness for C10 at concrete inputs: missing meta keys give the uncontrolled
error; a SymInt example value is skipped with the state unchanged. -/
theorem C10_witness :
    (handle_placeholder initFactoryState c10NoMetaNode =
      .error (.uncaught "UnboundLocalError"
        "local variable example_value referenced before assignment",
        initFactoryState))
    ∧ (handle_placeholder initFactoryState c10SymIntNode = .ok initFactoryState) :=
  ⟨C10_placeholder_meta_precondition.1 initFactoryState c10NoMetaNode rfl rfl,
   C10_placeholder_meta_precondition.2.2 initFactoryState c10SymIntNode
     (.symInt "s7") rfl
     (fun dt sh dev h => ExampleValue.noConfusion h)⟩

/-- Claim C6: the decomposition pass is a no-op when no node carries an
operator of the decomposition table, and — given that re-tracing through the
decomposition table produces a module free of decomposable operators, which is
what make_fx with a decomposition table guarantees — applying the pass to its
own output finds no further matches and rewrites nothing. -/
theorem C6_decomposition_noop_idempotent (dt : List FxTarget)
    (retrace : GraphModule → List ExampleValue → GraphModule)
    (gm : GraphModule) :
    (needs_decomposition dt gm = false →
       apply_decompositions dt retrace gm = gm)
    ∧ ((∀ g ins, needs_decomposition dt (retrace g ins) = false) →
       apply_decompositions dt retrace (apply_decompositions dt retrace gm) =
         apply_decompositions dt retrace gm) := by
  constructor
  · intro h
    simp [apply_decompositions, h]
  · intro hr
    by_cases h : needs_decomposition dt gm
    · simp [apply_decompositions, h, hr]
    · simp only [Bool.not_eq_true] at h
      simp [apply_decompositions, h]

/-- Claim C7, counterexample: the claim says the graph construction scope is
closed exactly once on every exit path, including early fatal errors. On a
node list whose call node hits the UnsupportedOperator error after the lazy
initialization opened the scope, compilation aborts with the scope entered
once and exited zero times — the error path leaves the scope open (there is no
try/finally or with-statement around the walk in the source). -/
theorem C7_counterexample :
    (create_graph [] [c7CallNode] =
      .error (.unsupportedOperator 0 (get_fully_qualified_name c7CallNode.target),
        emptyGraphState))
    ∧ emptyGraphState.scopeOpens = 1 ∧ emptyGraphState.scopeCloses = 0 :=
  ⟨rfl, rfl, rfl⟩

/-- Claim C7 as amended: the scope is created exactly once, lazily — a walk
over placeholders only never opens it, a second initialization attempt fails
with RuntimeError, and any successful walk has opened it at most once — and on
a successful compilation whose final node is the only Output node it is closed
exactly once; early fatal error paths, however, leave the scope open (see the
counterexample). -/
theorem C7_scope_lifecycle :
    (∀ st g, st.graph = some g →
       initialize_graph st = .error (.graphAlreadyInitialized, st))
    ∧ (∀ mapping nodes st2, (∀ n ∈ nodes, n.op = FxOp.placeholder) →
        create_graph mapping nodes = .ok st2 →
        st2.scopeOpens = 0 ∧ st2.scopeCloses = 0)
    ∧ (∀ mapping nodes st2, create_graph mapping nodes = .ok st2 →
        st2.scopeOpens ≤ 1)
    ∧ (∀ mapping body out st2, out.op = FxOp.output →
        (∀ n ∈ body, n.op ≠ FxOp.output) →
        create_graph mapping (body ++ [out]) = .ok st2 →
        st2.scopeOpens = 1 ∧ st2.scopeCloses = 1) := by
  refine ⟨?_, ?_, ?_, ?_⟩
  · intro st g hg
    unfold initialize_graph
    rw [hg]
  · intro mapping nodes st2 hph h
    obtain ⟨h1, h2, h3⟩ :=
      runNodes_placeholders mapping nodes initFactoryState 0 st2 hph h
    exact ⟨h2, h3⟩
  · intro mapping nodes st2 h
    have hQ := runNodes_Q mapping nodes initFactoryState 0 st2 rfl h
    unfold Qinv at hQ
    rw [hQ]
    cases st2.graph.isSome <;> simp
  · intro mapping body out st2 hop hout h
    unfold create_graph at h
    rw [runNodes_append] at h
    cases hb : runNodes mapping initFactoryState 0 body with
    | error e => rw [hb] at h; cases h
    | ok stb =>
      rw [hb] at h
      dsimp only at h
      simp only [runNodes] at h
      cases hs : stepNode mapping stb (0 + body.length) out with
      | error e => rw [hs] at h; cases h
      | ok st3 =>
        rw [hs] at h
        dsimp only at h
        cases h
        have hQb := runNodes_Q mapping body initFactoryState 0 stb rfl hb
        have hCb := runNodes_noClose mapping body initFactoryState 0 stb hout hb
        simp only [stepNode, hop] at hs
        cases he : ensureGraph stb with
        | error e => rw [he] at hs; cases hs
        | ok st1 =>
          rw [he] at hs
          dsimp only at hs
          obtain ⟨hQ1, hsome1, hc1⟩ := ensureGraph_Q stb st1 hQb he
          obtain ⟨hpre, hpost, ho, hc⟩ := handle_output_frame st1 out _ hs
          constructor
          · rw [ho]
            unfold Qinv at hQ1
            rw [hQ1, hsome1]
            rfl
          · rw [hc, hc1, hCb]
            rfl

/-- Witness for the amended C7: the second initialization attempt on an opened
state fails; a placeholder-only walk keeps the scope untouched; the successful
one-input pipeline (placeholder, supported call, output) opens and closes the
scope exactly once. -/
theorem C7_witness :
    (initialize_graph emptyGraphState =
      .error (.graphAlreadyInitialized, emptyGraphState))
    ∧ (phOnlyState.scopeOpens = 0 ∧ phOnlyState.scopeCloses = 0)
    ∧ (c7FullState.scopeOpens ≤ 1)
    ∧ (c7FullState.scopeOpens = 1 ∧ c7FullState.scopeCloses = 1) :=
  ⟨C7_scope_lifecycle.1 emptyGraphState
     { name := "max_torch_backend", inputTypes := [], outputs := Option.none }
     rfl,
   C7_scope_lifecycle.2.1 [] [exPhNode] phOnlyState
     (by intro n hn; rw [List.mem_singleton] at hn; subst hn; rfl) rfl,
   C7_scope_lifecycle.2.2.1 exMapping [exPhNode, exCallNode, exOutNode]
     c7FullState rfl,
   C7_scope_lifecycle.2.2.2 exMapping [exPhNode, exCallNode] exOutNode
     c7FullState rfl
     (by
       intro n hn
       rcases List.mem_cons.mp hn with rfl | hn2
       · decide
       · rcases List.mem_cons.mp hn2 with rfl | hn3
         · decide
         · cases hn3)
     rfl⟩

/-- Claim C4: processing the Output node converts each element of its single
ordered argument sequence; every None conversion has its zero-based position
recorded (in order) and is excluded, the remaining elements are submitted to
the graph in their original order, and when zero concrete outputs remain the
EmptyOutput error is raised instead — with the graph left untouched, nothing
submitted, and the scope not closed. -/
theorem C4_output_none_positions_and_empty (st : FactoryState) (node : FxNode)
    (g : MaxGraph) (xs cs : List PyVal)
    (hargs : outputArgList node = some xs)
    (hconv : convertList st.tensor_book xs = .ok cs)
    (hg : st.graph = some g) :
    (cs.filter (fun c => !c.isNone) = [] →
       handle_output st node =
         .error (.emptyOutput node.name,
           { st with none_indices := nonePosFrom 0 cs }))
    ∧ (cs.filter (fun c => !c.isNone) ≠ [] →
       handle_output st node =
         .ok { st with
                 none_indices := nonePosFrom 0 cs
                 graph := some { g with
                   outputs := some (cs.filter (fun c => !c.isNone)) }
                 scopeCloses := st.scopeCloses + 1 }) := by
  have hcol := collectOutputs_spec st.tensor_book xs 0 cs hconv
  constructor
  · intro hfil
    simp [handle_output, hargs, hcol, hfil]
  · intro hfil
    cases hfil2 : cs.filter (fun c => !c.isNone) with
    | nil => exact absurd hfil2 hfil
    | cons o os =>
      simp [handle_output, hargs, hcol, hfil2, hg]

/-- Witness for C4 at concrete inputs: an all-None output list raises
EmptyOutput after recording positions [0, 1]; the list [t, None] records
position 1, submits [tv], and closes the scope. -/
theorem C4_witness :
    (handle_output c4St c4AllNoneNode =
      .error (.emptyOutput "out", { c4St with none_indices := [0, 1] }))
    ∧ (handle_output c4St c4OutNode =
      .ok { c4St with
              none_indices := [1]
              graph := some { name := "max_torch_backend", inputTypes := []
                              outputs := some [.str "tv"] }
              scopeCloses := 1 }) :=
  ⟨(C4_output_none_positions_and_empty c4St c4AllNoneNode c4G
      [PyVal.none, PyVal.none] [PyVal.none, PyVal.none] rfl rfl rfl).1 rfl,
   (C4_output_none_positions_and_empty c4St c4OutNode c4G
      [.node "t", PyVal.none] [.str "tv", PyVal.none] rfl rfl rfl).2
     (List.cons_ne_nil _ _)⟩

/-- Claim C5, re-interleaving round trip: for an original output list whose
None elements sit at the recorded positions, and an execution producing one
tensor per concrete position, MaxCompiler.__call__ reconstructs a result of
the original arity that agrees with the spec-side re-interleaving: it is null
exactly at the recorded positions (same ordered position list) and carries the
execution tensors at the remaining positions in their original relative
order. -/
theorem C5_reinterleaving_round_trip {α : Type _} (cs : List PyVal)
    (ts : List α)
    (hlen : ts.length = (cs.filter (fun c => !c.isNone)).length) :
    maxCompilerCall (nonePosFrom 0 cs) ts = .ok (specReinterleave cs ts)
    ∧ (specReinterleave cs ts).length = cs.length
    ∧ nonePositionsOpt 0 (specReinterleave cs ts) = nonePosFrom 0 cs
    ∧ (specReinterleave cs ts).filterMap id = ts := by
  refine ⟨?_, specReinterleave_length cs ts hlen,
    specReinterleave_nonePositions cs ts 0 hlen,
    specReinterleave_filterMap cs ts hlen⟩
  unfold maxCompilerCall
  cases hP : nonePosFrom 0 cs with
  | nil =>
    have hl2 : ts.length = cs.length := by
      rw [hlen, nonePosFrom_nil_filter cs 0 hP]
    simp only [List.isEmpty_nil, if_true]
    rw [specReinterleave_no_none cs ts 0 hP hl2]
  | cons p P2 =>
    have hsplit := nonePosFrom_length_split cs 0
    rw [hP] at hsplit
    have hfuel : ts.length + (p :: P2).length = cs.length := by
      rw [hlen]; omega
    simp only [List.isEmpty_cons, Bool.false_eq_true, if_false]
    rw [hfuel]
    exact reinterleaveGo_spec cs 0 ts (p :: P2)
      (by intro j hj; rw [hP]) hlen

/-- Witness for C5 at the claim's own example: compile-time output
[tensorResult, None] (positions [1] recorded) and one execution tensor yield
[tensorResult, None] back, with arity 2, null exactly at position 1, and the
tensor list recovered in order. -/
theorem C5_witness :
    (maxCompilerCall [1] [(7 : Nat)] = .ok [some 7, Option.none])
    ∧ ([some (7 : Nat), Option.none].length = 2)
    ∧ (nonePositionsOpt 0 [some (7 : Nat), Option.none] = [1])
    ∧ ([some (7 : Nat), Option.none].filterMap id = [7]) :=
  C5_reinterleaving_round_trip [.str "tv", PyVal.none] [(7 : Nat)] rfl

/-- Witness for C6 at concrete inputs: the pass leaves a match-free module
unchanged, and is idempotent on a module with one decomposable call under a
re-trace that eliminates table operators. -/
theorem C6_witness :
    (apply_decompositions c6dt c6Retrace (GraphModule.mk []) = GraphModule.mk [])
    ∧ (apply_decompositions c6dt c6Retrace
         (apply_decompositions c6dt c6Retrace c6Gm) =
       apply_decompositions c6dt c6Retrace c6Gm) :=
  ⟨(C6_decomposition_noop_idempotent c6dt c6Retrace (GraphModule.mk [])).1 rfl,
   (C6_decomposition_noop_idempotent c6dt c6Retrace c6Gm).2 (fun g ins => rfl)⟩

/-- Claim C8: for an Input node with tensor metadata, every symbolic shape
dimension is registered under its stable name mapping to (producing tensor
name, dimension index), the declared graph input carries the symbolic
dimension at that index, and the node name maps to its input slot (first
conjunct); once the graph scope opens, every input name is bound to the graph
input handle at its recorded slot (second conjunct) and every registered
symbolic name is bound to a scalar value equal to that graph input's shape at
the recorded dimension index (third conjunct). The dict hypotheses (unique
keys, shape names distinct from input names) hold for the real Python dicts
produced by input processing. -/
theorem C8_symbolic_dims_registered_and_bound :
    (∀ st node dt sh dev j s st',
       metaExample node = some (.tensor dt sh dev) →
       handle_placeholder st node = .ok st' →
       sh.get? j = some (.symInt s) →
       (∀ j2, sh.get? j2 = some (.symInt s) → j2 = j) →
       dictGet st'.shape_names_to_input_dim s = some (node.name, j)
       ∧ st'.graph_inputs = st.graph_inputs ++
           [{ dtype := dtypeFromTorch dt, shape := sh.map dimToMax
              device := maxDeviceRef dev }]
       ∧ dictGet st'.names_to_input_idx node.name = some st.graph_inputs.length)
    ∧ (∀ st st' name idx ty,
       initialize_graph st = .ok st' →
       keysNodup st.names_to_input_idx →
       dictGet st.names_to_input_idx name = some idx →
       (∀ p ∈ st.shape_names_to_input_dim, p.1 ≠ name) →
       st.graph_inputs.get? idx = some ty →
       dictGet st'.tensor_book name = some (.maxValue (.tensorInput idx ty)))
    ∧ (∀ st st' s t d idx ty dim,
       initialize_graph st = .ok st' →
       keysNodup st.names_to_input_idx →
       keysNodup st.shape_names_to_input_dim →
       dictGet st.shape_names_to_input_dim s = some (t, d) →
       dictGet st.names_to_input_idx t = some idx →
       (∀ p ∈ st.shape_names_to_input_dim, p.1 ≠ t) →
       st.graph_inputs.get? idx = some ty →
       ty.shape.get? d = some dim →
       dictGet st'.tensor_book s = some (.maxValue (.dim dim))) := by
  refine ⟨?_, ?_, ?_⟩
  · intro st node dt sh dev j s st' hmeta hok hget huniq
    simp only [handle_placeholder, hmeta] at hok
    cases hok
    refine ⟨?_, ?_, ?_⟩
    · have := buildShape_unique node.name s sh 0 st.shape_names_to_input_dim j
        hget huniq
      simpa using this
    · rw [buildShape_fst]
    · rw [dictGet_dictSet_self]
      simp
  · intro st st' name idx ty hinit hnd hname hshape hty
    obtain ⟨book1, h1, h2⟩ := initialize_graph_books st st' hinit
    obtain ⟨v, hv, hb1⟩ := bindInputs_mem st.names_to_input_idx
      (graphInputsOf st.graph_inputs) st.tensor_book book1 name idx h1 hnd
      (dictGet_mem _ _ _ hname)
    have hvv : v = .maxValue (.tensorInput idx ty) := by
      rw [graphInputsOf_get, hty] at hv
      exact (Option.some.inj hv).symm
    rw [bindShapes_pres st.shape_names_to_input_dim book1 st'.tensor_book name
        h2 hshape,
      hb1, hvv]
  · intro st st' s t d idx ty dim hinit hndN hndS hs ht hneq hty hdim
    obtain ⟨book1, h1, h2⟩ := initialize_graph_books st st' hinit
    obtain ⟨v, hv, hb1⟩ := bindInputs_mem st.names_to_input_idx
      (graphInputsOf st.graph_inputs) st.tensor_book book1 t idx h1 hndN
      (dictGet_mem _ _ _ ht)
    have hvv : v = .maxValue (.tensorInput idx ty) := by
      rw [graphInputsOf_get, hty] at hv
      exact (Option.some.inj hv).symm
    have hsi : shapeIndex v d = .ok (.maxValue (.dim dim)) := by
      rw [hvv]
      unfold shapeIndex
      dsimp only
      rw [hdim]
    exact bindShapes_mem st.shape_names_to_input_dim book1 st'.tensor_book
      s t d v (.maxValue (.dim dim)) h2 hndS (dictGet_mem _ _ _ hs) hneq hb1 hsi

/-- Witness for C8 at the concrete one-input pipeline: the symbolic dimension
s0 of input x at index 0 is registered to ("x", 0), the declared input carries
it, the input name slots at 0; after initialization the book binds x to the
input handle and s0 to the handle's shape dimension 0. -/
theorem C8_witness :
    (dictGet phOnlyState.shape_names_to_input_dim "s0" = some ("x", 0)
     ∧ phOnlyState.graph_inputs = [exTT]
     ∧ dictGet phOnlyState.names_to_input_idx "x" = some 0)
    ∧ dictGet c8InitState.tensor_book "x" =
        some (.maxValue (.tensorInput 0 exTT))
    ∧ dictGet c8InitState.tensor_book "s0" =
        some (.maxValue (.dim (.symbolic "s0"))) :=
  ⟨C8_symbolic_dims_registered_and_bound.1 initFactoryState exPhNode "float32"
     [.symInt "s0", .int 3] "cpu" 0 "s0" phOnlyState rfl rfl rfl
     (by
       intro j2 h
       match j2 with
       | 0 => rfl
       | 1 => exact absurd h (by decide)
       | j + 2 => exact absurd h (by simp)),
   C8_symbolic_dims_registered_and_bound.2.1 phOnlyState c8InitState "x" 0 exTT
     rfl (by unfold keysNodup; decide)
     rfl
     (by
       intro p hp
       have hp2 : p = ("s0", ("x", 0)) := by
         simpa [phOnlyState] using hp
       subst hp2
       decide)
     rfl,
   C8_symbolic_dims_registered_and_bound.2.2 phOnlyState c8InitState "s0" "x"
     0 0 exTT (.symbolic "s0") rfl (by unfold keysNodup; decide)
     (by unfold keysNodup; decide) rfl rfl
     (by
       intro p hp
       have hp2 : p = ("s0", ("x", 0)) := by
         simpa [phOnlyState] using hp
       subst hp2
       decide)
     rfl rfl⟩

end MaxTorchBackend
